import Mathlib

/-!
Verification of the run-location data pipeline of this repository.

The development shallowly embeds the pipeline's algorithmic core:

* the runtime cache reader/sanitizer (the TypeScript module exporting
  `readRunLocationsCache`): `safeNumber`, `safeString`, `sanitizeMediaPath`,
  `normalizeRun`, `normalizeRoute`, `getDateRange`, `getUniqueLocations`,
  `normalizeStats`, `normalizeCache`, `readRunLocationsCache`;
* the batch exporter script `scripts/process-strava-export.mjs`:
  `splitCSVRow`, `parseGPXFirstCoord`, `parseGPXCoordinates`, `simplifyCoords`;
* the incremental updater script (merge/deduplication step of its `main`).

Modelling conventions:

* JavaScript strings are `List Char` (`JStr`).
* JavaScript numbers are `JSNum`: NaN, the two infinities, or an exact
  rational.  IEEE-754 rounding of individual float operations is idealised to
  exact rational arithmetic; none of the verified properties depends on the
  low-order bits of a float.
* JavaScript values reaching the reader (parsed JSON, plus `undefined` for a
  missing property) are the inductive type `Json`.
* File access and `Date` parsing/printing are impure platform services; they
  enter the model as explicit parameters (`fetch` functions, `DateLib`), so
  theorems quantify over their behaviour.
* `Number(string)` coercion is modelled for decimal and Infinity literals;
  the hexadecimal/octal/binary string forms are not modelled (no claim and no
  repository data path exercises them).
-/

set_option maxHeartbeats 1000000
set_option maxRecDepth 4000

namespace RunPipeline

/-- JavaScript strings, modelled as lists of characters. -/
abbrev JStr := List Char

/-- The whitespace class used by string trimming and numeric parsing. -/
def jsWs (c : Char) : Bool :=
  c == ' ' || c == '\t' || c == '\n' || c == '\r' || c == '\x0b' || c == '\x0c'

/-- A JavaScript number: NaN, an infinity, or an (idealised, exact) finite
rational value. -/
inductive JSNum where
  | nan : JSNum
  | posInf : JSNum
  | negInf : JSNum
  | num : ℚ → JSNum
deriving DecidableEq, Repr

namespace JSNum

/-- `Number.isFinite`. -/
def isFinite : JSNum → Bool
  | num _ => true
  | _ => false

/-- `Number.isNaN` (and, on numbers, the global `isNaN`). -/
def isNaN : JSNum → Bool
  | nan => true
  | _ => false

end JSNum

/-- JavaScript `+` on numbers. -/
def jsAdd : JSNum → JSNum → JSNum
  | .nan, _ => .nan
  | _, .nan => .nan
  | .posInf, .negInf => .nan
  | .negInf, .posInf => .nan
  | .posInf, _ => .posInf
  | _, .posInf => .posInf
  | .negInf, _ => .negInf
  | _, .negInf => .negInf
  | .num a, .num b => .num (a + b)

/-- `Math.max` on two numbers. -/
def jsMax : JSNum → JSNum → JSNum
  | .nan, _ => .nan
  | _, .nan => .nan
  | .posInf, _ => .posInf
  | _, .posInf => .posInf
  | .negInf, b => b
  | a, .negInf => a
  | .num a, .num b => .num (max a b)

/-- JavaScript `*` on numbers. -/
def jsMul : JSNum → JSNum → JSNum
  | .nan, _ => .nan
  | _, .nan => .nan
  | .posInf, .posInf => .posInf
  | .posInf, .negInf => .negInf
  | .negInf, .posInf => .negInf
  | .negInf, .negInf => .posInf
  | .posInf, .num b => if b = 0 then .nan else if 0 < b then .posInf else .negInf
  | .num a, .posInf => if a = 0 then .nan else if 0 < a then .posInf else .negInf
  | .negInf, .num b => if b = 0 then .nan else if 0 < b then .negInf else .posInf
  | .num a, .negInf => if a = 0 then .nan else if 0 < a then .negInf else .posInf
  | .num a, .num b => .num (a * b)

/-- JavaScript `/` on numbers (the sign of a zero divisor is lost in the
rational idealisation; the pipeline only ever divides by `10`). -/
def jsDiv : JSNum → JSNum → JSNum
  | .nan, _ => .nan
  | _, .nan => .nan
  | .posInf, .posInf => .nan
  | .posInf, .negInf => .nan
  | .negInf, .posInf => .nan
  | .negInf, .negInf => .nan
  | .posInf, .num b => if 0 ≤ b then .posInf else .negInf
  | .negInf, .num b => if 0 ≤ b then .negInf else .posInf
  | .num _, .posInf => .num 0
  | .num _, .negInf => .num 0
  | .num a, .num b =>
    if b = 0 then (if a = 0 then .nan else if 0 < a then .posInf else .negInf)
    else .num (a / b)

/-- `Math.round`: half-up rounding (toward positive infinity on ties). -/
def jsRound : JSNum → JSNum
  | .nan => .nan
  | .posInf => .posInf
  | .negInf => .negInf
  | .num a => .num (⌊a + 1/2⌋ : ℤ)

/-- A JavaScript value as seen by the reader: a parsed-JSON value, or
`undefined` (the result of reading an absent property). -/
inductive Json where
  | undefined : Json
  | null : Json
  | bool : Bool → Json
  | num : JSNum → Json
  | str : JStr → Json
  | arr : List Json → Json
  | obj : List (String × Json) → Json

/-- `leadsWith pat l` is true when `pat` is an initial segment of `l`. -/
def leadsWith : JStr → JStr → Bool
  | [], _ => true
  | _ :: _, [] => false
  | a :: as, b :: bs => a == b && leadsWith as bs

/-- Strip a literal from the front of a string, if present. -/
def stripLit : JStr → JStr → Option JStr
  | [], l => some l
  | _ :: _, [] => none
  | a :: as, b :: bs => if a == b then stripLit as bs else none

/-- `String.prototype.includes`: occurrence as a contiguous substring. -/
def hasSub (sub : JStr) : JStr → Bool
  | [] => leadsWith sub []
  | c :: t => leadsWith sub (c :: t) || hasSub sub (t)

/-- `String.prototype.trim`. -/
def jsTrim (l : JStr) : JStr :=
  ((l.dropWhile jsWs).reverse.dropWhile jsWs).reverse

/-- Numeric value of a digit string. -/
def digitsToNat (l : JStr) : ℕ :=
  l.foldl (fun a c => 10 * a + (c.toNat - '0'.toNat)) 0

/-- The exact value of a decimal literal with integer digits `ip`, fraction
digits `fp` over `fl` decimal places, and exponent `e`:
`(ip + fp / 10 ^ fl) * 10 ^ e`, written as one reduced fraction so the
definition evaluates by kernel reduction. -/
def decRat (ip fp fl : ℕ) (e : ℤ) : ℚ :=
  let numBase : ℤ := Int.ofNat (ip * 10 ^ fl + fp)
  match e with
  | .ofNat k => mkRat (numBase * Int.ofNat (10 ^ k)) (10 ^ fl)
  | .negSucc k => mkRat numBase (10 ^ fl * 10 ^ (k + 1))

/-- Parse a decimal literal (digits, optional fraction, optional exponent)
from the front of a string; return its exact value and the unread rest.
Fails when no digit occurs in the mantissa.  An exponent marker followed by
no digit is left unread, as in JavaScript. -/
def parseDec (l : JStr) : Option (ℚ × JStr) :=
  let ds := l.takeWhile Char.isDigit
  let r1 := l.drop ds.length
  let fr : JStr × JStr :=
    match r1 with
    | '.' :: rr => (rr.takeWhile Char.isDigit, rr.drop (rr.takeWhile Char.isDigit).length)
    | _ => ([], r1)
  let fs := fr.1
  let r2 := fr.2
  if ds.isEmpty && fs.isEmpty then none
  else
    let expPart : JStr → Option (ℤ × JStr) := fun r =>
      let sr : Bool × JStr :=
        match r with
        | '+' :: rr => (false, rr)
        | '-' :: rr => (true, rr)
        | rr => (false, rr)
      let es := sr.2.takeWhile Char.isDigit
      if es.isEmpty then none
      else some (if sr.1 then -(digitsToNat es : ℤ) else (digitsToNat es : ℤ),
                 sr.2.drop es.length)
    match r2 with
    | 'e' :: rest =>
      match expPart rest with
      | some (e, r3) => some (decRat (digitsToNat ds) (digitsToNat fs) fs.length e, r3)
      | none => some (decRat (digitsToNat ds) (digitsToNat fs) fs.length 0, r2)
    | 'E' :: rest =>
      match expPart rest with
      | some (e, r3) => some (decRat (digitsToNat ds) (digitsToNat fs) fs.length e, r3)
      | none => some (decRat (digitsToNat ds) (digitsToNat fs) fs.length 0, r2)
    | _ => some (decRat (digitsToNat ds) (digitsToNat fs) fs.length 0, r2)

/-- Magnitude part of `Number(string)`: the whole remaining string must be
consumed. -/
def strNumMag (l : JStr) (neg : Bool) : JSNum :=
  if l = "Infinity".toList then (if neg then .negInf else .posInf)
  else
    match parseDec l with
    | some (q, []) => .num (if neg then -q else q)
    | _ => .nan

/-- `Number(string)` (decimal and Infinity forms). -/
def strToNumber (s : JStr) : JSNum :=
  let t := jsTrim s
  if t.isEmpty then .num 0
  else
    match t with
    | '+' :: r => strNumMag r false
    | '-' :: r => strNumMag r true
    | r => strNumMag r false

/-- Magnitude part of `parseFloat`: the longest valid literal at the front is
consumed; trailing garbage is ignored. -/
def floatMag (l : JStr) (neg : Bool) : JSNum :=
  if leadsWith "Infinity".toList l then (if neg then .negInf else .posInf)
  else
    match parseDec l with
    | some (q, _) => .num (if neg then -q else q)
    | none => .nan

/-- `parseFloat(string)`. -/
def jsParseFloat (s : JStr) : JSNum :=
  let l := s.dropWhile jsWs
  match l with
  | '+' :: r => floatMag r false
  | '-' :: r => floatMag r true
  | r => floatMag r false

/-- `Number(value)` coercion of a JavaScript value.  Arrays coerce through
their comma-joined string form; a multi-element array therefore always
coerces to NaN, and a singleton coerces like its element (with `null`,
`undefined` joining as the empty string and booleans stringifying to a
non-numeric word). -/
def jsToNumber : Json → JSNum
  | .undefined => .nan
  | .null => .num 0
  | .bool b => .num (if b then 1 else 0)
  | .num n => n
  | .str s => strToNumber s
  | .arr [] => .num 0
  | .arr [e] =>
    match e with
    | .null => .num 0
    | .undefined => .num 0
    | .bool _ => .nan
    | x => jsToNumber x
  | .arr (_ :: _ :: _) => .nan
  | .obj _ => .nan

/-- Property read `j[k]`: `undefined` when the property is absent or the
value is not an object with that key. -/
def getField (j : Json) (k : String) : Json :=
  match j with
  | .obj fs => (fs.lookup k).getD .undefined
  | _ => .undefined

/-- JavaScript truthiness. -/
def truthy : Json → Bool
  | .undefined => false
  | .null => false
  | .bool b => b
  | .num .nan => false
  | .num (.num q) => decide (q ≠ 0)
  | .num _ => true
  | .str s => !s.isEmpty
  | .arr _ => true
  | .obj _ => true

/-- The values on which `typeof v === 'object'` holds (`null`, arrays and
plain objects). -/
def isObjType : Json → Bool
  | .null => true
  | .arr _ => true
  | .obj _ => true
  | _ => false

/-! ## Data model of the cache artifact (reader module interfaces) -/

/-- One run record as stored in the artifact (`RunLocation` in the reader). -/
structure RunLocation where
  lat : JSNum
  lng : JSNum
  name : JStr
  date : JStr
  distance : JSNum
  moving_time : JSNum
  media : List JStr
  gear : JStr
deriving DecidableEq, Repr

/-- A named polyline (`Route` in the reader). -/
structure Route where
  name : JStr
  coordinates : List (JSNum × JSNum)
deriving DecidableEq, Repr

/-- Derived statistics (`RunLocationsStats`). -/
structure RunLocationsStats where
  totalRuns : ℕ
  totalDistance : JSNum
  uniqueLocations : ℕ
  dateRange : List JStr
deriving DecidableEq, Repr

/-- The artifact (`RunLocationsCache`). -/
structure RunLocationsCache where
  runs : List RunLocation
  routes : List Route
  stats : RunLocationsStats
deriving DecidableEq, Repr

/-- Result of the runtime read (`CacheReadResult`); `error`/`source` use
`Option` for the TypeScript `| null`. -/
structure CacheReadResult where
  data : RunLocationsCache
  error : Option JStr
  source : Option JStr
deriving DecidableEq, Repr

/-- The JavaScript `Date` services used by the reader, as an explicit
environment: `parseMs s` is `new Date(s).getTime()` (NaN for an unparsable
string) and `toISO t` is `new Date(t).toISOString()`. -/
structure DateLib where
  parseMs : JStr → JSNum
  toISO : ℚ → JStr

/-- A trivial `DateLib` instance (nothing parses) used for concrete
evaluations. -/
def dlTriv : DateLib := ⟨fun _ => .nan, fun _ => []⟩

/-! ## Reader module (runtime cache reader/sanitizer) -/

/-- `EMPTY_CACHE` of the reader. -/
def EMPTY_CACHE : RunLocationsCache :=
  { runs := []
    routes := []
    stats := { totalRuns := 0, totalDistance := .num 0, uniqueLocations := 0, dateRange := [] } }

/-- `safeNumber(value, fallback)`. -/
def safeNumber (value : Json) (fallback : JSNum) : JSNum :=
  let n := match value with | .num n => n | v => jsToNumber v
  if n.isFinite then n else fallback

/-- `safeString(value, fallback)`. -/
def safeString (value : Json) (fallback : JStr) : JStr :=
  match value with
  | .str s => s
  | _ => fallback

/-- The character class of the media-path pattern: ASCII letters, digits,
dot, underscore, slash and hyphen. -/
def safeMediaChar (c : Char) : Bool :=
  ('A' ≤ c && c ≤ 'Z') || ('a' ≤ c && c ≤ 'z') || ('0' ≤ c && c ≤ '9') ||
    c == '.' || c == '_' || c == '/' || c == '-'

/-- The anchored regular-expression test of `sanitizeMediaPath`: the literal
root `strava-media/` followed by one or more characters of the safe class. -/
def mediaPatTest (l : JStr) : Bool :=
  match stripLit "strava-media/".toList l with
  | some rest => !rest.isEmpty && rest.all safeMediaChar
  | none => false

/-- `sanitizeMediaPath(value)`. -/
def sanitizeMediaPath (value : Json) : Option JStr :=
  match value with
  | .str s =>
    let normalized := (jsTrim s).dropWhile (· == '/')
    if normalized.isEmpty || hasSub "..".toList normalized then none
    else if mediaPatTest normalized then some normalized
    else none
  | _ => none

/-- `normalizeRun(raw)`. -/
def normalizeRun (raw : Json) : Option RunLocation :=
  if !(truthy raw && isObjType raw) then none
  else
    let lat := safeNumber (getField raw "lat") .nan
    let lng := safeNumber (getField raw "lng") .nan
    if !lat.isFinite || !lng.isFinite then none
    else
      let media :=
        match getField raw "media" with
        | .arr ms => (ms.map sanitizeMediaPath).reduceOption
        | _ => []
      some
        { lat := lat
          lng := lng
          name :=
            let t := jsTrim (safeString (getField raw "name") "Run".toList)
            if t.isEmpty then "Run".toList else t
          date := safeString (getField raw "date") []
          distance := jsMax (.num 0) (safeNumber (getField raw "distance") (.num 0))
          moving_time := jsMax (.num 0) (safeNumber (getField raw "moving_time") (.num 0))
          media := media
          gear := jsTrim (safeString (getField raw "gear") []) }

/-- The per-entry coordinate normalizer inside `normalizeRoute`: entry must be
an array of length at least 2 whose first two elements coerce to finite
numbers. -/
def coordNorm (coord : Json) : Option (JSNum × JSNum) :=
  match coord with
  | .arr es =>
    if es.length < 2 then none
    else
      let lat := safeNumber (es.getD 0 .undefined) .nan
      let lng := safeNumber (es.getD 1 .undefined) .nan
      if !lat.isFinite || !lng.isFinite then none
      else some (lat, lng)
  | _ => none

/-- `normalizeRoute(raw)`. -/
def normalizeRoute (raw : Json) : Option Route :=
  if !(truthy raw && isObjType raw) then none
  else
    match getField raw "coordinates" with
    | .arr cs =>
      let coordinates := (cs.map coordNorm).reduceOption
      if coordinates.length < 2 then none
      else
        some
          { name :=
              let t := jsTrim (safeString (getField raw "name") "Route".toList)
              if t.isEmpty then "Route".toList else t
            coordinates := coordinates }
    | _ => none

/-- `getDateRange(runs)`: finite parse times of the run dates, then the
ISO strings of their minimum and maximum. -/
def getDateRange (dl : DateLib) (runs : List RunLocation) : List JStr :=
  let timestamps :=
    (runs.map (fun r => dl.parseMs r.date)).filterMap
      (fun n => match n with | .num q => some q | _ => none)
  match timestamps with
  | [] => []
  | t :: ts => [dl.toISO ((t :: ts).foldl min t), dl.toISO ((t :: ts).foldl max t)]

/-- The rounded-coordinate bucket of one axis:
`(Math.round(x * 10) / 10).toFixed(1)`.  The `toFixed(1)` string rendering is
injective on the reachable values, so the bucket is kept as the number
itself. -/
def roundTenth (n : JSNum) : JSNum :=
  jsDiv (jsRound (jsMul n (.num 10))) (.num 10)

/-- `getUniqueLocations(runs)`: the number of distinct rounded buckets. -/
def getUniqueLocations (runs : List RunLocation) : ℕ :=
  ((runs.map (fun r => (roundTenth r.lat, roundTenth r.lng))).dedup).length

/-- The `dateRange` filter inside `normalizeStats`: keep entries that are
non-blank strings. -/
def dateEntry (v : Json) : Option JStr :=
  match v with
  | .str s => if 0 < (jsTrim s).length then some s else none
  | _ => none

/-- `normalizeStats(rawStats, runs)`. -/
def normalizeStats (dl : DateLib) (rawStats : Json) (runs : List RunLocation) :
    RunLocationsStats :=
  let computedDistance := runs.foldl (fun sum r => jsAdd sum r.distance) (.num 0)
  let computedDateRange := getDateRange dl runs
  let stats := if truthy rawStats && isObjType rawStats then rawStats else .obj []
  let rawDateRange :=
    match getField stats "dateRange" with
    | .arr vs => vs.filterMap dateEntry
    | _ => []
  { totalRuns := runs.length
    totalDistance := computedDistance
    uniqueLocations := getUniqueLocations runs
    dateRange := if 2 ≤ rawDateRange.length then rawDateRange.take 2 else computedDateRange }

/-- `normalizeCache(raw)`. -/
def normalizeCache (dl : DateLib) (raw : Json) : RunLocationsCache :=
  match raw with
  | .arr items =>
    let runs := (items.map normalizeRun).reduceOption
    { runs := runs, routes := [], stats := normalizeStats dl .null runs }
  | _ =>
    if !(truthy raw && isObjType raw) then EMPTY_CACHE
    else
      let runs :=
        match getField raw "runs" with
        | .arr rs => (rs.map normalizeRun).reduceOption
        | _ => []
      let routes :=
        match getField raw "routes" with
        | .arr rs => (rs.map normalizeRoute).reduceOption
        | _ => []
      { runs := runs, routes := routes, stats := normalizeStats dl (getField raw "stats") runs }

/-- `' | '`-joining of the accumulated per-path error messages. -/
def joinBar : List JStr → JStr
  | [] => []
  | [x] => x
  | x :: y :: t => x ++ " | ".toList ++ joinBar (y :: t)

/-- The loop body of `readRunLocationsCache`: try each path in order with the
platform read-and-parse function `fetch` (modelling
`JSON.parse(readFileSync(path, 'utf-8'))`, whose failure carries the thrown
error's message); accumulate tagged errors. -/
def readGo (dl : DateLib) (fetch : JStr → Except JStr Json) :
    List JStr → List JStr → CacheReadResult
  | [], errors =>
    { data := EMPTY_CACHE
      error :=
        some (let e := joinBar errors
              if e.isEmpty then "No run locations data file found".toList else e)
      source := none }
  | p :: ps, errors =>
    match fetch p with
    | .ok raw => { data := normalizeCache dl raw, error := none, source := some p }
    | .error msg => readGo dl fetch ps (errors ++ [p ++ ": ".toList ++ msg])

/-- `readRunLocationsCache(paths)`. -/
def readRunLocationsCache (dl : DateLib) (fetch : JStr → Except JStr Json)
    (paths : List JStr) : CacheReadResult :=
  readGo dl fetch paths []

/-! ## Re-encoding a normalized artifact as a JavaScript value

Feeding `normalizeCache`'s result back to `normalizeCache` (the round-trip of
the spec) means passing the TypeScript object it returned; these encoders
write that object down as a `Json` value. -/

/-- The object value of a normalized run record. -/
def encodeRun (r : RunLocation) : Json :=
  .obj [("lat", .num r.lat), ("lng", .num r.lng), ("name", .str r.name),
        ("date", .str r.date), ("distance", .num r.distance),
        ("moving_time", .num r.moving_time),
        ("media", .arr (r.media.map .str)), ("gear", .str r.gear)]

/-- The object value of a normalized route. -/
def encodeRoute (rt : Route) : Json :=
  .obj [("name", .str rt.name),
        ("coordinates", .arr (rt.coordinates.map (fun c => .arr [.num c.1, .num c.2])))]

/-- The object value of a normalized stats record. -/
def encodeStats (st : RunLocationsStats) : Json :=
  .obj [("totalRuns", .num (.num (st.totalRuns : ℚ))),
        ("totalDistance", .num st.totalDistance),
        ("uniqueLocations", .num (.num (st.uniqueLocations : ℚ))),
        ("dateRange", .arr (st.dateRange.map .str))]

/-- The object value of a normalized artifact. -/
def encodeCache (c : RunLocationsCache) : Json :=
  .obj [("runs", .arr (c.runs.map encodeRun)),
        ("routes", .arr (c.routes.map encodeRoute)),
        ("stats", encodeStats c.stats)]

/-! ## Batch exporter script (process-strava-export.mjs) -/

/-- The character loop of `splitCSVRow`, with the partial field and the
in-quotes flag as explicit state.  A quote inside quotes followed by a second
quote (the source's `line[i + 1]` lookahead) appends a literal quote and
skips it; any other quote toggles the flag; an unquoted comma closes the
field; every other character is appended. -/
def goCSV : List Char → JStr → Bool → List JStr
  | [], current, _ => [current]
  | '"' :: '"' :: rest, current, true => goCSV rest (current ++ ['"']) true
  | '"' :: rest, current, inQuotes => goCSV rest current (!inQuotes)
  | ',' :: rest, current, false => current :: goCSV rest [] false
  | ch :: rest, current, inQuotes => goCSV rest (current ++ [ch]) inQuotes

/-- `splitCSVRow(line)`. -/
def splitCSVRow (line : JStr) : List JStr :=
  goCSV line [] false

/-- Require one or more whitespace characters and consume the maximal run
(the deterministic reading of a greedy whitespace-plus against a following
non-whitespace literal). -/
def wsPlus (l : JStr) : Option JStr :=
  match l with
  | c :: _ => if jsWs c then some (l.dropWhile jsWs) else none
  | [] => none

/-- Capture group `([^"]+)` followed by its closing quote: the maximal
non-empty run of non-quote characters, then a quote. -/
def capture (l : JStr) : Option (JStr × JStr) :=
  let cs := l.takeWhile (fun c => c != '"')
  if cs.isEmpty then none
  else
    match l.drop cs.length with
    | '"' :: rest => some (cs, rest)
    | _ => none

/-- Match the track-point pattern at the start of the text: the literal
`<trkpt`, whitespace, a quoted `lat` attribute, whitespace, a quoted `lon`
attribute.  Returns the two captures and the unread rest.  The source
pattern's greedy pieces each sit before a literal their class excludes, so
the regex engine's answer is this deterministic scan. -/
def matchTrkptAt (l : JStr) : Option (JStr × JStr × JStr) :=
  (stripLit "<trkpt".toList l).bind fun l1 =>
  (wsPlus l1).bind fun l2 =>
  (stripLit "lat=\"".toList l2).bind fun l3 =>
  (capture l3).bind fun p =>
  (wsPlus p.2).bind fun l5 =>
  (stripLit "lon=\"".toList l5).bind fun l6 =>
  (capture l6).map fun q => (p.1, q.1, q.2)

/-- Leftmost match of the track-point pattern: the position scan of the
regex engine. -/
def findTrkpt : JStr → Option (JStr × JStr × JStr)
  | [] => none
  | c :: t =>
    match matchTrkptAt (c :: t) with
    | some r => some r
    | none => findTrkpt t

lemma bind_some_elim {α β : Type} {o : Option α} {f : α → Option β} {b : β}
    (h : o.bind f = some b) : ∃ a, o = some a ∧ f a = some b := by
  cases o <;> simp_all

lemma map_some_elim {α β : Type} {o : Option α} {f : α → β} {b : β}
    (h : o.map f = some b) : ∃ a, o = some a ∧ f a = b := by
  cases o <;> simp_all

lemma stripLit_length {pat l r : JStr} (h : stripLit pat l = some r) :
    r.length ≤ l.length := by
  induction pat generalizing l with
  | nil =>
    simp [stripLit] at h
    exact le_of_eq (by rw [h])
  | cons a as ih =>
    cases l with
    | nil => simp [stripLit] at h
    | cons b bs =>
      simp only [stripLit] at h
      split at h
      · exact le_trans (ih h) (by simp)
      · exact absurd h (by simp)

lemma dropWhile_length (p : Char → Bool) (l : JStr) :
    (l.dropWhile p).length ≤ l.length := by
  induction l with
  | nil => simp
  | cons a t ih =>
    by_cases h : p a
    · simp [List.dropWhile, h]; omega
    · simp [List.dropWhile, h]

lemma wsPlus_length {l r : JStr} (h : wsPlus l = some r) : r.length < l.length := by
  cases l with
  | nil => simp [wsPlus] at h
  | cons c t =>
    by_cases hc : jsWs c
    · simp only [wsPlus, hc, if_pos] at h
      cases h
      have := dropWhile_length jsWs t
      simp [List.dropWhile, hc]
      omega
    · simp [wsPlus, hc] at h

lemma capture_length {l : JStr} {p : JStr × JStr} (h : capture l = some p) :
    p.2.length < l.length := by
  simp only [capture] at h
  split at h
  · exact absurd h (by simp)
  · split at h
    next heq =>
      cases h
      dsimp only
      have h1 : (l.drop (l.takeWhile (fun c => c != '"')).length).length ≤ l.length := by
        simp
      rw [heq] at h1
      simp at h1
      omega
    · exact absurd h (by simp)

lemma matchTrkptAt_length {l : JStr} {a b rest : JStr}
    (h : matchTrkptAt l = some (a, b, rest)) : rest.length < l.length := by
  unfold matchTrkptAt at h
  obtain ⟨l1, h1, h⟩ := bind_some_elim h
  obtain ⟨l2, h2, h⟩ := bind_some_elim h
  obtain ⟨l3, h3, h⟩ := bind_some_elim h
  obtain ⟨p, h4, h⟩ := bind_some_elim h
  obtain ⟨l5, h5, h⟩ := bind_some_elim h
  obtain ⟨l6, h6, h⟩ := bind_some_elim h
  obtain ⟨q, h7, hq⟩ := map_some_elim h
  have hr : rest = q.2 := by
    have := congrArg (fun x : JStr × JStr × JStr => x.2.2) hq
    simpa using this.symm
  subst hr
  have c7 := capture_length h7
  have c6 := stripLit_length h6
  have c5 := wsPlus_length h5
  have c4 := capture_length h4
  have c3 := stripLit_length h3
  have c2 := wsPlus_length h2
  have c1 := stripLit_length h1
  omega

lemma findTrkpt_length {l a b rest : JStr}
    (h : findTrkpt l = some (a, b, rest)) : rest.length < l.length := by
  induction l with
  | nil => simp [findTrkpt] at h
  | cons c t ih =>
    simp only [findTrkpt] at h
    cases hm : matchTrkptAt (c :: t) with
    | some r =>
      rw [hm] at h
      cases h
      exact matchTrkptAt_length hm
    | none =>
      rw [hm] at h
      have := ih h
      simp
      omega

/-- `parseGPXFirstCoord(gpxText)`: parse only the first track-point match and
validate it (non-NaN values, not the (0,0) pair). -/
def parseGPXFirstCoord (gpxText : JStr) : Option (JSNum × JSNum) :=
  match findTrkpt gpxText with
  | none => none
  | some (a, b, _) =>
    let lat := jsParseFloat a
    let lng := jsParseFloat b
    if lat.isNaN || lng.isNaN || (lat = .num 0 ∧ lng = .num 0) then none
    else some (lat, lng)

/-- The scanning loop of `parseGPXCoordinates` (the `while exec` loop of the
global regex): collect every match whose values are non-NaN and each
individually nonzero. -/
def gpxLoop (l : JStr) : List (JSNum × JSNum) :=
  match h : findTrkpt l with
  | none => []
  | some (a, b, rest) =>
    let lat := jsParseFloat a
    let lng := jsParseFloat b
    (if !lat.isNaN && !lng.isNaN && lat ≠ .num 0 && lng ≠ .num 0
     then [(lat, lng)] else []) ++ gpxLoop rest
termination_by l.length
decreasing_by exact findTrkpt_length h

/-- `parseGPXCoordinates(gpxText)`. -/
def parseGPXCoordinates (gpxText : JStr) : List (JSNum × JSNum) :=
  gpxLoop gpxText

/-- `simplifyCoords(coords, maxPoints)`.  `step` is the exact
`Math.ceil(coords.length / maxPoints)`.  The source's final check compares
the last kept element with the input's last element by object reference
(`!==`); the coordinate arrays at distinct positions are distinct fresh
objects, so the check holds exactly when the last sampled index is not the
last input index, i.e. when `step` does not divide `length - 1`. -/
def simplifyCoords {α : Type} (coords : List α) (maxPoints : ℕ) : List α :=
  if coords.length ≤ maxPoints then coords
  else
    let step := (coords.length + maxPoints - 1) / maxPoints
    let result :=
      ((List.range coords.length).filter (fun i => i % step == 0)).filterMap
        (fun i => coords.get? i)
    if (coords.length - 1) % step == 0 then result
    else result ++ coords.drop (coords.length - 1)

/-! ## Incremental updater script (merge step of its `main`) -/

/-- One fetched activity as exposed by the remote API (the fields the
updater reads).  `gearName` is `a.gear?.name` (`none` when `gear` is
absent). -/
structure Activity where
  type : JStr
  start_latlng : List JSNum
  name : JStr
  start_date_local : JStr
  start_date : JStr
  distance : JSNum
  moving_time : JSNum
  gearName : Option JStr
deriving DecidableEq, Repr

/-- The updater's per-activity map to the cache record shape.  For the
length-2 coordinate lists that survive the updater's GPS filter, `getD`
is exactly the array subscript of the source. -/
def toCacheRun (a : Activity) : RunLocation :=
  { lat := a.start_latlng.getD 0 .nan
    lng := a.start_latlng.getD 1 .nan
    name := a.name
    date := if a.start_date_local.isEmpty then a.start_date else a.start_date_local
    distance := a.distance
    moving_time := a.moving_time
    media := []
    gear := a.gearName.getD [] }

/-- The updater's merge step (steps 5 and 6 of its `main`): build the set of
existing date strings, map the fetched activities to records, drop records
whose date is already present, and append the survivors. -/
def mergeNewRuns (cacheRuns : List RunLocation) (newRuns : List Activity) :
    List RunLocation :=
  let existingDates := cacheRuns.map (fun r => r.date)
  let runsToAdd := (newRuns.map toCacheRun).filter (fun r => !existingDates.contains r.date)
  cacheRuns ++ runsToAdd

/-! ## General-purpose lemmas -/

lemma reduceOption_map {α β : Type} (f : α → Option β) (l : List α) :
    (l.map f).reduceOption = l.filterMap f := by
  induction l with
  | nil => rfl
  | cons a t ih =>
    cases h : f a <;>
      simp only [List.map_cons, List.reduceOption_cons_of_some,
        List.reduceOption_cons_of_none, List.filterMap_cons, h, ih]

lemma stripLit_some {pat l r : JStr} (h : stripLit pat l = some r) : l = pat ++ r := by
  induction pat generalizing l with
  | nil => simp [stripLit] at h; simp [h]
  | cons a as ih =>
    cases l with
    | nil => simp [stripLit] at h
    | cons b bs =>
      simp only [stripLit] at h
      split at h
      next hab =>
        have hab' : a = b := by simpa using hab
        subst hab'
        simp [ih h, List.cons_append]
      · exact absurd h (by simp)

lemma leadsWith_append (pat r : JStr) : leadsWith pat (pat ++ r) = true := by
  induction pat with
  | nil => rfl
  | cons a as ih => simp [leadsWith, ih]

/-! ## C1 -/

/-- C1 (amended): every record accepted by `normalizeRun` has finite `lat`
and `lng` (records with a non-finite coordinate are dropped); `normalizeRun`
does not reject the (0,0) pair — that rejection happens upstream in the
extractors and the updater, not in the runtime reader. -/
theorem C1_run_coordinates_finite (raw : Json) (r : RunLocation)
    (h : normalizeRun raw = some r) :
    r.lat.isFinite = true ∧ r.lng.isFinite = true := by
  simp only [normalizeRun] at h
  by_cases h1 : (truthy raw && isObjType raw) = true
  · rw [if_neg (by simp [h1])] at h
    by_cases h2 : (!(safeNumber (getField raw "lat") JSNum.nan).isFinite ||
        !(safeNumber (getField raw "lng") JSNum.nan).isFinite) = true
    · rw [if_pos h2] at h
      exact absurd h (by simp)
    · rw [if_neg h2] at h
      cases h
      simp only [Bool.or_eq_true, Bool.not_eq_true'] at h2
      push_neg at h2
      constructor
      · simpa using h2.1
      · simpa using h2.2
  · have h1' : (truthy raw && isObjType raw) = false := by
      cases hb : (truthy raw && isObjType raw)
      · rfl
      · exact absurd hb h1
    rw [if_pos (by simp [h1'])] at h
    exact absurd h (by simp)

/-- C1 witness at a concrete accepted record. -/
theorem C1_witness :
    normalizeRun (Json.obj [("lat", Json.num (.num 1)), ("lng", Json.num (.num 2))]) =
      some { lat := .num 1, lng := .num 2, name := "Run".toList, date := [],
             distance := .num 0, moving_time := .num 0, media := [], gear := [] } ∧
    (JSNum.isFinite (.num 1) = true ∧ JSNum.isFinite (.num 2) = true) :=
  ⟨by decide,
   C1_run_coordinates_finite
     (Json.obj [("lat", Json.num (.num 1)), ("lng", Json.num (.num 2))])
     { lat := .num 1, lng := .num 2, name := "Run".toList, date := [],
       distance := .num 0, moving_time := .num 0, media := [], gear := [] }
     (by decide)⟩

/-- C1 counterexample: a raw record with `lat = 0` and `lng = 0` is NOT
dropped by `normalizeRun`; it is returned with both coordinates exactly
zero, contradicting the claimed "not simultaneously exactly zero" invariant
of the reader's normalization. -/
theorem C1_counterexample :
    normalizeRun (Json.obj [("lat", Json.num (.num 0)), ("lng", Json.num (.num 0))]) =
      some { lat := .num 0, lng := .num 0, name := "Run".toList, date := [],
             distance := .num 0, moving_time := .num 0, media := [], gear := [] } := by
  decide

/-! ## C6 -/

lemma safeMediaChar_not_ws {c : Char} (h : safeMediaChar c = true) : jsWs c = false := by
  cases hw : jsWs c
  · rfl
  · exfalso
    simp only [jsWs, Bool.or_eq_true, beq_iff_eq] at hw
    rcases hw with ((((rfl | rfl) | rfl) | rfl) | rfl) | rfl <;> simp [safeMediaChar] at h

lemma sanitize_shape {v : Json} {m : JStr} (h : sanitizeMediaPath v = some m) :
    hasSub "..".toList m = false ∧ mediaPatTest m = true := by
  cases v with
  | str s =>
    simp only [sanitizeMediaPath] at h
    split at h
    · exact absurd h (by simp)
    next hcond =>
      split at h
      next hpat =>
        cases h
        constructor
        · simp only [Bool.or_eq_true, not_or, Bool.not_eq_true] at hcond
          exact hcond.2
        · exact hpat
      · exact absurd h (by simp)
  | undefined => simp [sanitizeMediaPath] at h
  | null => simp [sanitizeMediaPath] at h
  | bool b => simp [sanitizeMediaPath] at h
  | num n => simp [sanitizeMediaPath] at h
  | arr es => simp [sanitizeMediaPath] at h
  | obj fs => simp [sanitizeMediaPath] at h

lemma normalizeRun_isSome (raw : Json) :
    (normalizeRun raw).isSome =
      (truthy raw && isObjType raw &&
       (safeNumber (getField raw "lat") .nan).isFinite &&
       (safeNumber (getField raw "lng") .nan).isFinite) := by
  unfold normalizeRun
  cases h1 : (truthy raw && isObjType raw) with
  | false => simp [h1]
  | true =>
    simp only [h1, Bool.not_true, Bool.false_eq_true, if_false, Bool.true_and]
    cases hlat : (safeNumber (getField raw "lat") .nan).isFinite <;>
      cases hlng : (safeNumber (getField raw "lng") .nan).isFinite <;>
        simp [hlat, hlng]

/-- C6: every media path surviving `sanitizeMediaPath` contains no `..`
substring (hence no parent-directory segment), does not start with a slash,
starts with the fixed `strava-media/` directory root, and consists only of
filename-safe characters; a record's surviving media sequence is exactly
the per-entry filter of its raw media entries; and acceptance of the record
itself never depends on the media field (failing media entries are dropped
without dropping the record). -/
theorem C6_media_path_safety :
    (∀ v m, sanitizeMediaPath v = some m →
       hasSub "..".toList m = false ∧
       leadsWith "strava-media/".toList m = true ∧
       m.head? ≠ some '/' ∧
       m.all safeMediaChar = true) ∧
    (∀ raw r, normalizeRun raw = some r →
       r.media = (match getField raw "media" with
                  | .arr ms => ms.filterMap sanitizeMediaPath
                  | _ => [])) ∧
    (∀ raw, (normalizeRun raw).isSome =
       (truthy raw && isObjType raw &&
        (safeNumber (getField raw "lat") .nan).isFinite &&
        (safeNumber (getField raw "lng") .nan).isFinite)) := by
  refine ⟨?_, ?_, normalizeRun_isSome⟩
  · intro v m h
    obtain ⟨hdot, hpat⟩ := sanitize_shape h
    simp only [mediaPatTest] at hpat
    cases hs : stripLit "strava-media/".toList m with
    | none => rw [hs] at hpat; exact absurd hpat (by simp)
    | some rest =>
      rw [hs] at hpat
      simp only [Bool.and_eq_true, Bool.not_eq_true'] at hpat
      have hm : m = "strava-media/".toList ++ rest := stripLit_some hs
      refine ⟨hdot, ?_, ?_, ?_⟩
      · rw [hm]; exact leadsWith_append _ _
      · rw [hm]; simp
      · rw [hm]
        simp only [List.all_append, Bool.and_eq_true]
        exact ⟨by decide, hpat.2⟩
  · intro raw r h
    simp only [normalizeRun] at h
    by_cases h1 : (truthy raw && isObjType raw) = true
    · rw [if_neg (by simp [h1])] at h
      by_cases h2 : (!(safeNumber (getField raw "lat") JSNum.nan).isFinite ||
          !(safeNumber (getField raw "lng") JSNum.nan).isFinite) = true
      · rw [if_pos h2] at h
        exact absurd h (by simp)
      · rw [if_neg h2] at h
        cases h
        simp only
        cases hm : getField raw "media" with
        | arr ms => simp [hm, reduceOption_map]
        | undefined => simp [hm]
        | null => simp [hm]
        | bool b => simp [hm]
        | num n => simp [hm]
        | str s => simp [hm]
        | obj fs => simp [hm]
    · have h1' : (truthy raw && isObjType raw) = false := by
        cases hb : (truthy raw && isObjType raw)
        · rfl
        · exact absurd hb h1
      rw [if_pos (by simp [h1'])] at h
      exact absurd h (by simp)

/-- C6 witness: a concrete surviving path and a concrete record whose bad
media entries are dropped while the record survives. -/
theorem C6_witness :
    (sanitizeMediaPath (Json.str "/strava-media/a.jpg".toList) =
       some "strava-media/a.jpg".toList) ∧
    hasSub "..".toList "strava-media/a.jpg".toList = false ∧
    leadsWith "strava-media/".toList "strava-media/a.jpg".toList = true ∧
    "strava-media/a.jpg".toList.head? ≠ some '/' ∧
    "strava-media/a.jpg".toList.all safeMediaChar = true :=
  ⟨by decide,
   C6_media_path_safety.1 (Json.str "/strava-media/a.jpg".toList)
     "strava-media/a.jpg".toList (by decide)⟩

/-! ## C9 -/

/-- Quoted-field escaping of the CSV format: double every quote. -/
def escapeQuotes (f : JStr) : JStr :=
  f.flatMap (fun c => if c = '"' then ['"', '"'] else [c])

lemma goCSV_other {c : Char} (hc : c ≠ '"') (l cur : JStr) :
    goCSV (c :: l) cur true = goCSV l (cur ++ [c]) true := by
  simp [goCSV, hc]

lemma goCSV_quoted (f cur : JStr) :
    goCSV (escapeQuotes f ++ ['"']) cur true = [cur ++ f] := by
  induction f generalizing cur with
  | nil => simp [escapeQuotes, goCSV]
  | cons c t ih =>
    by_cases hc : c = '"'
    · subst hc
      have hl : escapeQuotes ('"' :: t) ++ ['"'] = '"' :: '"' :: (escapeQuotes t ++ ['"']) := by
        simp [escapeQuotes]
      rw [hl]
      show goCSV ('"' :: '"' :: (escapeQuotes t ++ ['"'])) cur true = _
      rw [show goCSV ('"' :: '"' :: (escapeQuotes t ++ ['"'])) cur true =
            goCSV (escapeQuotes t ++ ['"']) (cur ++ ['"']) true from by simp [goCSV]]
      rw [ih]
      simp
    · have hl : escapeQuotes (c :: t) ++ ['"'] = c :: (escapeQuotes t ++ ['"']) := by
        simp [escapeQuotes, hc]
      rw [hl, goCSV_other hc, ih]
      simp

lemma goCSV_openQuote (l cur : JStr) : goCSV ('"' :: l) cur false = goCSV l cur true := by
  cases l with
  | nil => simp [goCSV]
  | cons a t =>
    by_cases h : a = '"'
    · subst h; simp [goCSV]
    · simp [goCSV, h]

/-- C9: `splitCSVRow` treats a doubled quote inside a quoted field as one
literal quote and does not split on commas inside quoted fields: any quoted,
quote-doubled field parses back to exactly that one field; in particular the
spec's example field parses to the single literal value. -/
theorem C9_csv_quoting :
    (∀ f : JStr, splitCSVRow ('"' :: (escapeQuotes f ++ ['"'])) = [f]) ∧
    splitCSVRow "\"5,280 \"\"great\"\" run\"".toList = ["5,280 \"great\" run".toList] := by
  constructor
  · intro f
    unfold splitCSVRow
    rw [goCSV_openQuote]
    simpa using goCSV_quoted f []
  · decide

/-! ## C8 -/

/-- C8: the updater's merge step never duplicates a date already present in
the cache (the multiplicity of every existing date is unchanged by the
merge), and a fetched run whose date is not yet present is appended. -/
theorem C8_merge_dedup (cacheRuns : List RunLocation) (newRuns : List Activity) :
    (∀ d, d ∈ cacheRuns.map (fun r => r.date) →
       ((mergeNewRuns cacheRuns newRuns).map (fun r => r.date)).count d =
         (cacheRuns.map (fun r => r.date)).count d) ∧
    (∀ a ∈ newRuns, (toCacheRun a).date ∉ cacheRuns.map (fun r => r.date) →
       toCacheRun a ∈ mergeNewRuns cacheRuns newRuns) := by
  constructor
  · intro d hd
    unfold mergeNewRuns
    rw [List.map_append, List.count_append]
    have hz : (((newRuns.map toCacheRun).filter
        (fun r => !(cacheRuns.map (fun r => r.date)).contains r.date)).map
          (fun r => r.date)).count d = 0 := by
      rw [List.count_eq_zero]
      intro hmem
      obtain ⟨r, hr, hrd⟩ := List.mem_map.mp hmem
      have hpred := (List.mem_filter.mp hr).2
      simp only [Bool.not_eq_true'] at hpred
      have hne : r.date ∉ cacheRuns.map (fun r => r.date) := by
        intro hc
        have h2 : List.elem r.date (cacheRuns.map (fun r => r.date)) = false := hpred
        rw [List.elem_eq_true_of_mem hc] at h2
        exact absurd h2 (by simp)
      exact hne (hrd ▸ hd)
    omega
  · intro a ha hnew
    unfold mergeNewRuns
    refine List.mem_append_right _ (List.mem_filter.mpr ⟨List.mem_map_of_mem _ ha, ?_⟩)
    simp only [Bool.not_eq_true']
    cases hc : (cacheRuns.map (fun r => r.date)).contains (toCacheRun a).date
    · rfl
    · exact absurd (List.mem_of_elem_eq_true hc) hnew

/-- C8 witness at a concrete cache and fetch list: the duplicate-dated
activity is dropped and the fresh one appended. -/
theorem C8_witness :
    (("2024-05-01T12:00:00.000Z".toList ∈
        ([(⟨.num 1, .num 2, "A".toList, "2024-05-01T12:00:00.000Z".toList, .num 3, .num 4,
           [], []⟩ : RunLocation)].map (fun r => r.date))) ∧
      ((mergeNewRuns
          [⟨.num 1, .num 2, "A".toList, "2024-05-01T12:00:00.000Z".toList, .num 3, .num 4,
            [], []⟩]
          [⟨"Run".toList, [.num 1, .num 2], "B".toList,
            "2024-05-01T12:00:00.000Z".toList, [], .num 5, .num 6, none⟩]).map
          (fun r => r.date)).count "2024-05-01T12:00:00.000Z".toList =
        (([(⟨.num 1, .num 2, "A".toList, "2024-05-01T12:00:00.000Z".toList, .num 3, .num 4,
           [], []⟩ : RunLocation)]).map (fun r => r.date)).count
          "2024-05-01T12:00:00.000Z".toList) :=
  ⟨by decide,
   (C8_merge_dedup
      [⟨.num 1, .num 2, "A".toList, "2024-05-01T12:00:00.000Z".toList, .num 3, .num 4, [], []⟩]
      [⟨"Run".toList, [.num 1, .num 2], "B".toList, "2024-05-01T12:00:00.000Z".toList, [],
        .num 5, .num 6, none⟩]).1
     "2024-05-01T12:00:00.000Z".toList (by decide)⟩

/-! ## C3 -/

lemma range_filter_mod (s : ℕ) (hs : 0 < s) :
    ∀ n, (List.range n).filter (fun i => i % s == 0) =
      (List.range ((n + s - 1) / s)).map (· * s) := by
  intro n
  induction n with
  | zero => simp [Nat.div_eq_of_lt (show s - 1 < s by omega)]
  | succ n ih =>
    rw [List.range_succ, List.filter_append, ih]
    have hsum : n + 1 + s - 1 = (n + s - 1) + 1 := by omega
    rw [hsum, Nat.succ_div]
    have heq : n + s - 1 + 1 = n + s := by omega
    by_cases hd : s ∣ n
    · rw [if_pos (by rw [heq]; exact Nat.dvd_add_self_right.mpr hd)]
      obtain ⟨k, hk⟩ := hd
      have hgs : (n + s - 1) / s = k := by
        have h1 : n + s - 1 = s * k + (s - 1) := by omega
        rw [h1, Nat.mul_add_div hs, Nat.div_eq_of_lt (by omega), Nat.add_zero]
      rw [hgs, List.range_succ, List.map_append]
      have hmod : (n % s == 0) = true := by
        simp [hk, Nat.mul_mod_right]
      rw [List.filter_singleton, hmod]
      simp [hk, Nat.mul_comm]
    · rw [if_neg (by rw [heq]; exact fun hc => hd (Nat.dvd_add_self_right.mp hc))]
      have hmod : (n % s == 0) = false := by
        simp only [beq_eq_false_iff_ne, ne_eq]
        intro hz
        exact hd (Nat.dvd_of_mod_eq_zero hz)
      rw [List.filter_singleton, hmod]
      simp

lemma filterMap_get_length {α : Type} (l : List α) :
    ∀ is : List ℕ, (∀ i ∈ is, i < l.length) →
      (is.filterMap (fun i => l.get? i)).length = is.length := by
  intro is
  induction is with
  | nil => simp
  | cons i t ih =>
    intro hvalid
    have hi : i < l.length := hvalid i (by simp)
    rw [List.filterMap_cons]
    cases hget : l.get? i with
    | none => exact absurd hget (by rw [List.get?_eq_get hi]; simp)
    | some a =>
      simp only [List.length_cons]
      rw [ih (fun j hj => hvalid j (by simp [hj]))]

lemma filterMap_get_getLast {α : Type} (l : List α) :
    ∀ is : List ℕ, (∀ i ∈ is, i < l.length) → is ≠ [] →
      (is.filterMap (fun i => l.get? i)).getLast? = is.getLast?.bind (fun i => l.get? i) := by
  intro is
  induction is with
  | nil => intro _ h; exact absurd rfl h
  | cons i t ih =>
    intro hvalid _
    have hi : i < l.length := hvalid i (by simp)
    cases t with
    | nil =>
      cases hget : l.get? i with
      | none => exact absurd hget (by rw [List.get?_eq_get hi]; simp)
      | some a =>
        rw [List.filterMap_cons, hget]
        simp only [List.filterMap_nil, List.getLast?_singleton, Option.some_bind]
        exact hget.symm
    | cons j t2 =>
      have hj : j < l.length := hvalid j (by simp)
      cases hget : l.get? i with
      | none => exact absurd hget (by rw [List.get?_eq_get hi]; simp)
      | some a =>
        cases hgetj : l.get? j with
        | none => exact absurd hgetj (by rw [List.get?_eq_get hj]; simp)
        | some b =>
          rw [List.filterMap_cons, hget]
          have htail := ih (fun x hx => hvalid x (by simp [hx])) (by simp)
          rw [List.filterMap_cons, hgetj] at htail ⊢
          rw [List.getLast?_cons_cons]
          rw [htail]
          rw [List.getLast?_cons_cons]

lemma ceil200_pos {n : ℕ} (h : 200 < n) : 0 < (n + 200 - 1) / 200 :=
  Nat.div_pos (by omega) (by norm_num)

lemma ceil200_mul {n : ℕ} (h : 200 < n) : n ≤ 200 * ((n + 200 - 1) / 200) := by
  have h1 := Nat.div_add_mod (n + 200 - 1) 200
  have h2 := Nat.mod_lt (n + 200 - 1) (show 0 < 200 by norm_num)
  omega

lemma drop_pred_singleton {α : Type} :
    ∀ l : List α, l ≠ [] → ∃ c, l.drop (l.length - 1) = [c] ∧ l.getLast? = some c := by
  intro l
  induction l with
  | nil => intro h; exact absurd rfl h
  | cons a t ih =>
    intro _
    cases t with
    | nil => exact ⟨a, by simp, by simp⟩
    | cons b t2 =>
      obtain ⟨c, hc1, hc2⟩ := ih (by simp)
      refine ⟨c, ?_, ?_⟩
      · have hlen : (a :: b :: t2).length - 1 = (b :: t2).length := by simp
        rw [hlen]
        have : (b :: t2).length = ((b :: t2).length - 1) + 1 := by simp
        rw [this, List.drop_succ_cons]
        exact hc1
      · rw [List.getLast?_cons_cons]
        exact hc2

lemma range_map_mul_getLast (g s : ℕ) (hg : 0 < g) :
    ((List.range g).map (· * s)).getLast? = some ((g - 1) * s) := by
  obtain ⟨g0, rfl⟩ : ∃ g0, g = g0 + 1 := ⟨g - 1, by omega⟩
  rw [List.range_succ, List.map_append]
  simp [List.getLast?_concat]

/-- C3 (amended): for an input longer than the 200-point target,
`simplifyCoords` returns at most 201 points (not 200: when the stride does
not land on the final index, the final point is appended to an
already-full sample), and its last element is exactly the input's last
element. -/
theorem C3_route_simplification {α : Type} (coords : List α) (h : 200 < coords.length) :
    (simplifyCoords coords 200).length ≤ 201 ∧
    (simplifyCoords coords 200).getLast? = coords.getLast? := by
  have hne : coords ≠ [] := by
    intro hc
    rw [hc] at h
    simp at h
  obtain ⟨c, hdrop, hlastc⟩ := drop_pred_singleton coords hne
  revert hdrop
  simp only [simplifyCoords]
  rw [if_neg (by omega)]
  intro hdrop
  have hs : 0 < (coords.length + 200 - 1) / 200 := ceil200_pos h
  have hns : coords.length ≤ 200 * ((coords.length + 200 - 1) / 200) := ceil200_mul h
  generalize hsdef : (coords.length + 200 - 1) / 200 = s at hs hns ⊢
  generalize hndef : coords.length = n at h hs hns hdrop ⊢
  have hg : (n + s - 1) / s = (n - 1) / s + 1 := by
    have h1 : n + s - 1 = (n - 1) + s := by omega
    rw [h1, Nat.add_div_right _ hs]
  have hgle : (n + s - 1) / s ≤ 200 := by
    rw [hg]
    have h2 : (n - 1) / s < 200 := by
      rw [Nat.div_lt_iff_lt_mul hs]
      omega
    omega
  rw [range_filter_mod s hs n]
  have hkeep : ∀ i ∈ (List.range ((n + s - 1) / s)).map (· * s), i < coords.length := by
    intro i hi
    obtain ⟨k, hk, rfl⟩ := List.mem_map.mp hi
    have hk2 : k < (n + s - 1) / s := List.mem_range.mp hk
    have hk3 : k ≤ (n - 1) / s := by omega
    have hk4 : k * s ≤ ((n - 1) / s) * s := Nat.mul_le_mul_right s hk3
    have hk5 : ((n - 1) / s) * s ≤ n - 1 := Nat.div_mul_le_self _ _
    omega
  have hlenkeep : (((List.range ((n + s - 1) / s)).map (· * s)).filterMap
      (fun i => coords.get? i)).length = (n + s - 1) / s := by
    rw [filterMap_get_length coords _ hkeep]
    simp
  have hgpos : 0 < (n + s - 1) / s := hg.symm ▸ Nat.succ_pos ((n - 1) / s)
  have hkeepne : (List.range ((n + s - 1) / s)).map (· * s) ≠ [] := by
    intro hc
    have hl := congrArg List.length hc
    rw [List.length_map, List.length_range, List.length_nil] at hl
    exact absurd hl (Nat.pos_iff_ne_zero.mp hgpos)
  have hlast := filterMap_get_getLast coords _ hkeep hkeepne
  rw [range_map_mul_getLast ((n + s - 1) / s) s hgpos] at hlast
  by_cases hmod : (n - 1) % s = 0
  · rw [if_pos (by simp [hmod])]
    constructor
    · rw [hlenkeep]
      omega
    · rw [hlast]
      have hidx : ((n + s - 1) / s - 1) * s = n - 1 := by
        rw [hg]
        simp only [Nat.add_sub_cancel]
        exact Nat.div_mul_cancel (Nat.dvd_of_mod_eq_zero hmod)
      rw [hidx]
      have hget : coords.get? (n - 1) = some c := by
        have h0 : (coords.drop (n - 1)).get? 0 = coords.get? (n - 1 + 0) :=
          List.get?_drop _ _ _
        rw [hdrop] at h0
        simpa using h0.symm
      simp only [Option.some_bind]
      rw [hget, hlastc]
  · rw [if_neg (by simp [hmod])]
    constructor
    · rw [List.length_append, hlenkeep]
      have hd1 : (coords.drop (n - 1)).length = 1 := by
        rw [hdrop]
        rfl
      omega
    · rw [hdrop, List.getLast?_concat]
      exact hlastc.symm

/-- C3 counterexample: a 400-point input (longer than the 200-point target)
simplifies to 201 points, exceeding the claimed bound of 200. -/
theorem C3_counterexample :
    200 < (List.range 400).length ∧ (simplifyCoords (List.range 400) 200).length = 201 := by
  constructor
  · decide
  · decide

/-- C3 witness at a concrete 201-point input. -/
theorem C3_witness :
    200 < (List.range 201).length ∧
    ((simplifyCoords (List.range 201) 200).length ≤ 201 ∧
     (simplifyCoords (List.range 201) 200).getLast? = (List.range 201).getLast?) :=
  ⟨by decide, C3_route_simplification (List.range 201) (by decide)⟩

/-! ## C4 -/

lemma gpxLoop_none {l : JStr} (h : findTrkpt l = none) : gpxLoop l = [] := by
  rw [gpxLoop]
  split
  · rfl
  next heq => rw [h] at heq; exact absurd heq (by simp)

lemma gpxLoop_some {l a b rest : JStr} (h : findTrkpt l = some (a, b, rest)) :
    gpxLoop l =
      (if !(jsParseFloat a).isNaN && !(jsParseFloat b).isNaN &&
          jsParseFloat a ≠ .num 0 && jsParseFloat b ≠ .num 0
       then [(jsParseFloat a, jsParseFloat b)] else []) ++ gpxLoop rest := by
  rw [gpxLoop]
  split
  next heq => rw [h] at heq; exact absurd heq (by simp)
  next a0 b0 rest0 heq =>
    rw [h] at heq
    obtain ⟨rfl, rfl, rfl⟩ : a = a0 ∧ b = b0 ∧ rest = rest0 := by
      have := Option.some.inj heq
      exact ⟨congrArg (fun x : JStr × JStr × JStr => x.1) this,
             congrArg (fun x : JStr × JStr × JStr => x.2.1) this,
             congrArg (fun x : JStr × JStr × JStr => x.2.2) this⟩
    rfl

lemma parseGPXFirstCoord_nomatch {t : JStr} (h : findTrkpt t = none) :
    parseGPXFirstCoord t = none := by
  rw [parseGPXFirstCoord, h]

lemma parseGPXFirstCoord_match {t a b rest : JStr} (h : findTrkpt t = some (a, b, rest)) :
    parseGPXFirstCoord t =
      (if (jsParseFloat a).isNaN || (jsParseFloat b).isNaN ||
          (jsParseFloat a = .num 0 ∧ jsParseFloat b = .num 0)
       then none else some (jsParseFloat a, jsParseFloat b)) := by
  rw [parseGPXFirstCoord, h]

/-- C4 (amended): `parseGPXFirstCoord` inspects only the FIRST track-point
match: it returns that point's coordinate when its lat/lon parse as non-NaN
numbers that are not the (0,0) pair, and returns none both when no
track point exists and when the first track point fails the check (later
valid points are never examined; non-NaN infinite values are accepted).
Whenever it returns a coordinate with both components nonzero, that
coordinate is the head of the full coordinate parse. -/
theorem C4_gpx_first_coord (t : JStr) :
    (parseGPXFirstCoord t = none ↔
      findTrkpt t = none ∨
      (∃ a b rest, findTrkpt t = some (a, b, rest) ∧
        ((jsParseFloat a).isNaN = true ∨ (jsParseFloat b).isNaN = true ∨
         (jsParseFloat a = .num 0 ∧ jsParseFloat b = .num 0)))) ∧
    (∀ lat lng, parseGPXFirstCoord t = some (lat, lng) →
      (lat.isNaN = false ∧ lng.isNaN = false ∧ ¬(lat = .num 0 ∧ lng = .num 0)) ∧
      (lat ≠ .num 0 → lng ≠ .num 0 →
        (parseGPXCoordinates t).head? = some (lat, lng))) := by
  cases hf : findTrkpt t with
  | none =>
    constructor
    · simp [parseGPXFirstCoord_nomatch hf, hf]
    · intro lat lng heq
      rw [parseGPXFirstCoord_nomatch hf] at heq
      exact absurd heq (by simp)
  | some r =>
    obtain ⟨a, b, rest⟩ := r
    constructor
    · rw [parseGPXFirstCoord_match hf]
      by_cases hc : (((jsParseFloat a).isNaN = true ∨ (jsParseFloat b).isNaN = true) ∨
          (jsParseFloat a = .num 0 ∧ jsParseFloat b = .num 0))
      · rw [if_pos (by simpa using hc)]
        simp only [true_iff]
        refine Or.inr ⟨a, b, rest, rfl, ?_⟩
        tauto
      · rw [if_neg (by simpa using hc)]
        constructor
        · intro habs
          exact absurd habs (by simp)
        · rintro (hnone | ⟨a2, b2, rest2, heq2, hbad⟩)
          · exact absurd hnone (by simp)
          · obtain ⟨rfl, rfl⟩ : a = a2 ∧ b = b2 := by
              have hinj := Option.some.inj heq2
              exact ⟨congrArg (fun x : JStr × JStr × JStr => x.1) hinj,
                     congrArg (fun x : JStr × JStr × JStr => x.2.1) hinj⟩
            exact absurd (by tauto : (((jsParseFloat a).isNaN = true ∨
              (jsParseFloat b).isNaN = true) ∨
              (jsParseFloat a = .num 0 ∧ jsParseFloat b = .num 0))) hc
    · intro lat lng heq
      rw [parseGPXFirstCoord_match hf] at heq
      by_cases hc : (((jsParseFloat a).isNaN = true ∨ (jsParseFloat b).isNaN = true) ∨
          (jsParseFloat a = .num 0 ∧ jsParseFloat b = .num 0))
      · rw [if_pos (by simpa using hc)] at heq
        exact absurd heq (by simp)
      · rw [if_neg (by simpa using hc)] at heq
        obtain ⟨rfl, rfl⟩ : jsParseFloat a = lat ∧ jsParseFloat b = lng := by
          have hinj := Option.some.inj heq
          exact ⟨congrArg Prod.fst hinj, congrArg Prod.snd hinj⟩
        push_neg at hc
        refine ⟨⟨by simpa using hc.1.1, by simpa using hc.1.2, ?_⟩, ?_⟩
        · intro hz
          exact (hc.2 hz.1) hz.2
        · intro hz1 hz2
          rw [parseGPXCoordinates, gpxLoop_some hf]
          rw [if_pos (by simp [hc.1.1, hc.1.2, hz1, hz2])]
          rfl

/-- C4 counterexample: a text whose first track point is the invalid (0,0)
but whose second track point is valid.  `parseGPXFirstCoord` returns none
even though a valid point exists in the input (as the full parse shows),
refuting "returns none exactly when no valid point exists". -/
theorem C4_counterexample :
    parseGPXFirstCoord "<trkpt lat=\"0\" lon=\"0\"><trkpt lat=\"1\" lon=\"2\"".toList =
      none ∧
    parseGPXCoordinates "<trkpt lat=\"0\" lon=\"0\"><trkpt lat=\"1\" lon=\"2\"".toList =
      [(JSNum.num 1, JSNum.num 2)] := by
  constructor
  · decide
  · have h1 : findTrkpt "<trkpt lat=\"0\" lon=\"0\"><trkpt lat=\"1\" lon=\"2\"".toList =
        some ("0".toList, "0".toList, "><trkpt lat=\"1\" lon=\"2\"".toList) := by decide
    have h2 : findTrkpt "><trkpt lat=\"1\" lon=\"2\"".toList =
        some ("1".toList, "2".toList, ([] : JStr)) := by decide
    have h3 : findTrkpt ([] : JStr) = none := by decide
    rw [parseGPXCoordinates, gpxLoop_some h1, gpxLoop_some h2, gpxLoop_none h3]
    decide

/-- C4 witness at a text whose first track point is valid. -/
theorem C4_witness :
    parseGPXFirstCoord "<trkpt lat=\"1\" lon=\"2\">".toList =
      some (JSNum.num 1, JSNum.num 2) ∧
    (((JSNum.num 1).isNaN = false ∧ (JSNum.num 2).isNaN = false ∧
      ¬(JSNum.num 1 = JSNum.num 0 ∧ JSNum.num 2 = JSNum.num 0)) ∧
     (JSNum.num 1 ≠ JSNum.num 0 → JSNum.num 2 ≠ JSNum.num 0 →
       (parseGPXCoordinates "<trkpt lat=\"1\" lon=\"2\">".toList).head? =
         some (JSNum.num 1, JSNum.num 2))) :=
  ⟨by decide,
   (C4_gpx_first_coord "<trkpt lat=\"1\" lon=\"2\">".toList).2
     (JSNum.num 1) (JSNum.num 2) (by decide)⟩

/-! ## C10 -/

/-- C10: for a (truthy, object-typed) raw route value, invalid coordinate
entries are dropped individually by the per-entry normalizer and the route
survives exactly when its `coordinates` field is an array from which at
least two valid pairs remain; a surviving route carries exactly those valid
pairs in order, and its name falls back to `Route` when the name field is
absent, not a string, or blank after trimming. -/
theorem C10_route_normalization (raw : Json)
    (hobj : (truthy raw && isObjType raw) = true) :
    ((normalizeRoute raw).isSome = true ↔
      (∃ cs, getField raw "coordinates" = Json.arr cs ∧
        2 ≤ (cs.filterMap coordNorm).length)) ∧
    (∀ rt, normalizeRoute raw = some rt →
      (∃ cs, getField raw "coordinates" = Json.arr cs ∧
        rt.coordinates = cs.filterMap coordNorm ∧ 2 ≤ rt.coordinates.length) ∧
      rt.name = (if (jsTrim (safeString (getField raw "name") "Route".toList)).isEmpty
                 then "Route".toList
                 else jsTrim (safeString (getField raw "name") "Route".toList))) := by
  have hcore : normalizeRoute raw =
      (match getField raw "coordinates" with
       | Json.arr cs =>
         if (cs.filterMap coordNorm).length < 2 then none
         else some
           { name :=
               (if (jsTrim (safeString (getField raw "name") "Route".toList)).isEmpty
                then "Route".toList
                else jsTrim (safeString (getField raw "name") "Route".toList))
             coordinates := cs.filterMap coordNorm }
       | _ => none) := by
    simp only [normalizeRoute]
    rw [if_neg (by simp [hobj])]
    cases hcs : getField raw "coordinates" <;> simp [reduceOption_map]
  rw [hcore]
  cases hcs : getField raw "coordinates" with
  | arr cs =>
    dsimp only
    by_cases hlen : (cs.filterMap coordNorm).length < 2
    · rw [if_pos hlen]
      constructor
      · simp only [Option.isSome_none, Bool.false_eq_true, false_iff]
        rintro ⟨cs2, hcs2, hlen2⟩
        cases hcs2
        omega
      · intro rt habs
        exact absurd habs (by simp)
    · rw [if_neg hlen]
      constructor
      · simp only [Option.isSome_some, true_iff]
        exact ⟨cs, rfl, by omega⟩
      · intro rt heq
        cases heq
        refine ⟨⟨cs, rfl, rfl, ?_⟩, rfl⟩
        show 2 ≤ (cs.filterMap coordNorm).length
        omega
  | undefined => simp
  | null => simp
  | bool b => simp
  | num n => simp
  | str s => simp
  | obj fs => simp

/-- C10 witness: a concrete route object with one malformed entry between
two valid pairs survives with exactly the two valid pairs. -/
theorem C10_witness :
    (truthy (Json.obj [("name", Json.str "  ".toList),
        ("coordinates", Json.arr [Json.arr [Json.num (.num 1), Json.num (.num 2)],
          Json.str "bad".toList,
          Json.arr [Json.num (.num 3), Json.num (.num 4)]])]) &&
      isObjType (Json.obj [("name", Json.str "  ".toList),
        ("coordinates", Json.arr [Json.arr [Json.num (.num 1), Json.num (.num 2)],
          Json.str "bad".toList,
          Json.arr [Json.num (.num 3), Json.num (.num 4)]])])) = true ∧
    ((normalizeRoute (Json.obj [("name", Json.str "  ".toList),
        ("coordinates", Json.arr [Json.arr [Json.num (.num 1), Json.num (.num 2)],
          Json.str "bad".toList,
          Json.arr [Json.num (.num 3), Json.num (.num 4)]])])).isSome = true ↔
      (∃ cs, getField (Json.obj [("name", Json.str "  ".toList),
          ("coordinates", Json.arr [Json.arr [Json.num (.num 1), Json.num (.num 2)],
            Json.str "bad".toList,
            Json.arr [Json.num (.num 3), Json.num (.num 4)]])]) "coordinates" =
          Json.arr cs ∧ 2 ≤ (cs.filterMap coordNorm).length)) :=
  ⟨by decide,
   (C10_route_normalization (Json.obj [("name", Json.str "  ".toList),
      ("coordinates", Json.arr [Json.arr [Json.num (.num 1), Json.num (.num 2)],
        Json.str "bad".toList,
        Json.arr [Json.num (.num 3), Json.num (.num 4)]])]) (by decide)).1⟩

/-! ## C7 -/

/-- The first candidate path whose read-and-parse succeeds, with its parsed
value. -/
def firstOk (fetch : JStr → Except JStr Json) : List JStr → Option (JStr × Json)
  | [] => none
  | p :: ps =>
    match fetch p with
    | .ok j => some (p, j)
    | .error _ => firstOk fetch ps

/-- The per-path tagged error messages of the failing candidates. -/
def pathErrs (fetch : JStr → Except JStr Json) (paths : List JStr) : List JStr :=
  paths.filterMap (fun p =>
    match fetch p with
    | .error e => some (p ++ ": ".toList ++ e)
    | .ok _ => none)

lemma readGo_ok {dl : DateLib} {fetch : JStr → Except JStr Json} :
    ∀ {paths : List JStr} {p : JStr} {j : Json},
      firstOk fetch paths = some (p, j) → ∀ errs,
        readGo dl fetch paths errs =
          { data := normalizeCache dl j, error := none, source := some p } := by
  intro paths
  induction paths with
  | nil => intro p j h; simp [firstOk] at h
  | cons q ps ih =>
    intro p j h errs
    cases hf : fetch q with
    | ok j0 =>
      rw [firstOk, hf] at h
      obtain ⟨rfl, rfl⟩ : q = p ∧ j0 = j := by
        have hinj := Option.some.inj h
        exact ⟨congrArg Prod.fst hinj, congrArg Prod.snd hinj⟩
      rw [readGo, hf]
    | error m =>
      rw [firstOk, hf] at h
      rw [readGo, hf]
      exact ih h _

lemma readGo_fail {dl : DateLib} {fetch : JStr → Except JStr Json} :
    ∀ {paths : List JStr}, firstOk fetch paths = none → ∀ errs,
      readGo dl fetch paths errs =
        { data := EMPTY_CACHE
          error :=
            some (if (joinBar (errs ++ pathErrs fetch paths)).isEmpty
                  then "No run locations data file found".toList
                  else joinBar (errs ++ pathErrs fetch paths))
          source := none } := by
  intro paths
  induction paths with
  | nil =>
    intro _ errs
    rw [readGo]
    simp [pathErrs]
  | cons q ps ih =>
    intro h errs
    cases hf : fetch q with
    | ok j0 => rw [firstOk, hf] at h; exact absurd h (by simp)
    | error m =>
      rw [firstOk, hf] at h
      rw [readGo, hf]
      refine (ih h (errs ++ [q ++ ": ".toList ++ m])).trans ?_
      have hpe : pathErrs fetch (q :: ps) =
          (q ++ ": ".toList ++ m) :: pathErrs fetch ps := by
        simp [pathErrs, List.filterMap_cons, hf]
      rw [hpe]
      simp [List.append_assoc]

lemma joinBar_cons_ne {x : JStr} (hx : x ≠ []) (xs : List JStr) :
    (joinBar (x :: xs)).isEmpty = false := by
  cases xs with
  | nil => simpa [joinBar, List.isEmpty_iff] using hx
  | cons y ys =>
    rw [joinBar]
    simp [List.isEmpty_iff, hx]

/-- C7: the runtime reader tries the candidate paths in order, returning the
normalized artifact of the first path whose read-and-parse succeeds together
with that path as source; if every candidate fails it returns (totally,
without any exception escaping) the empty well-formed artifact, the
bar-joined multi-path error message (or the fixed fallback message when the
candidate list itself is empty), and a null source. -/
theorem C7_reader_fallback (dl : DateLib) (fetch : JStr → Except JStr Json)
    (paths : List JStr) :
    (∀ p j, firstOk fetch paths = some (p, j) →
      readRunLocationsCache dl fetch paths =
        { data := normalizeCache dl j, error := none, source := some p }) ∧
    (firstOk fetch paths = none →
      readRunLocationsCache dl fetch paths =
        { data := EMPTY_CACHE
          error := some (if paths.isEmpty
                         then "No run locations data file found".toList
                         else joinBar (pathErrs fetch paths))
          source := none }) := by
  constructor
  · intro p j h
    exact readGo_ok h []
  · intro h
    rw [readRunLocationsCache, readGo_fail h []]
    cases paths with
    | nil => simp [pathErrs, joinBar]
    | cons q ps =>
      cases hf : fetch q with
      | ok j0 => rw [firstOk, hf] at h; exact absurd h (by simp)
      | error m =>
        have hpe : pathErrs fetch (q :: ps) =
            (q ++ ": ".toList ++ m) :: pathErrs fetch ps := by
          simp [pathErrs, List.filterMap_cons, hf]
        rw [List.nil_append, hpe,
          joinBar_cons_ne (by simp) (pathErrs fetch ps)]
        simp

/-- C7 witness: with a fetch function that fails on every path, the reader
returns the empty artifact, the joined two-path error, and no source. -/
theorem C7_witness :
    firstOk (fun _ => Except.error "boom".toList) ["a".toList, "b".toList] = none ∧
    readRunLocationsCache dlTriv (fun _ => Except.error "boom".toList)
        ["a".toList, "b".toList] =
      { data := EMPTY_CACHE
        error := some (if (["a".toList, "b".toList] : List JStr).isEmpty
                       then "No run locations data file found".toList
                       else joinBar (pathErrs (fun _ => Except.error "boom".toList)
                         ["a".toList, "b".toList]))
        source := none } :=
  ⟨rfl,
   (C7_reader_fallback dlTriv (fun _ => Except.error "boom".toList)
      ["a".toList, "b".toList]).2 rfl⟩

/-! ## C2 -/

/-- The sum of the runs' distances under JavaScript addition. -/
def sumDistances (runs : List RunLocation) : JSNum :=
  runs.foldr (fun r s => jsAdd r.distance s) (.num 0)

/-- The persisted `dateRange` entries that the stats normalizer would keep:
non-blank strings of the (object-typed) raw stats value's `dateRange`
array. -/
def persistedDateEntries (rawStats : Json) : List JStr :=
  match getField (if truthy rawStats && isObjType rawStats then rawStats else .obj [])
      "dateRange" with
  | .arr vs => vs.filterMap dateEntry
  | _ => []

lemma jsAdd_zero_right (a : JSNum) : jsAdd a (.num 0) = a := by
  cases a <;> simp [jsAdd]

lemma jsAdd_zero_left (a : JSNum) : jsAdd (.num 0) a = a := by
  cases a <;> simp [jsAdd]

lemma jsAdd_assoc (a b c : JSNum) : jsAdd (jsAdd a b) c = jsAdd a (jsAdd b c) := by
  cases a <;> cases b <;> cases c <;> simp [jsAdd, add_assoc]

lemma foldl_jsAdd (l : List RunLocation) :
    ∀ a, l.foldl (fun s r => jsAdd s r.distance) a = jsAdd a (sumDistances l) := by
  induction l with
  | nil => intro a; simp [sumDistances, jsAdd_zero_right]
  | cons r t ih =>
    intro a
    rw [List.foldl_cons, ih, jsAdd_assoc]
    rfl

/-- C2 (amended): `totalRuns`, `totalDistance` and `uniqueLocations` are
always recomputed from the normalized runs, ignoring the persisted stats
value; `dateRange` is taken from the persisted value whenever AT LEAST two
non-blank string entries remain after filtering (the first two are kept,
with no requirement that they parse as dates), and is recomputed from the
runs otherwise. -/
theorem C2_stats_consistency (dl : DateLib) (rawStats : Json) (runs : List RunLocation) :
    (normalizeStats dl rawStats runs).totalRuns = runs.length ∧
    (normalizeStats dl rawStats runs).totalDistance = sumDistances runs ∧
    (normalizeStats dl rawStats runs).uniqueLocations = getUniqueLocations runs ∧
    (normalizeStats dl rawStats runs).dateRange =
      (if 2 ≤ (persistedDateEntries rawStats).length
       then (persistedDateEntries rawStats).take 2
       else getDateRange dl runs) := by
  refine ⟨rfl, ?_, rfl, rfl⟩
  show runs.foldl (fun s r => jsAdd s r.distance) (.num 0) = sumDistances runs
  rw [foldl_jsAdd, jsAdd_zero_left]

/-- C2 counterexample: a persisted `dateRange` of three unparsable strings.
The claim says `dateRange` either equals the persisted value (only when it
has exactly two parseable entries — here it has none) or is recomputed from
the (empty) run set, which would give `[]`; the code instead returns the
first two persisted strings unchanged. -/
theorem C2_counterexample :
    (normalizeStats dlTriv
        (Json.obj [("dateRange",
          Json.arr [Json.str "x".toList, Json.str "y".toList, Json.str "z".toList])])
        []).dateRange = ["x".toList, "y".toList] ∧
    getDateRange dlTriv [] = [] ∧
    (["x".toList, "y".toList] : List JStr) ≠
      ["x".toList, "y".toList, "z".toList] := by
  refine ⟨by decide, rfl, by decide⟩

/-! ## C5: round-trip lemmas for trimming and sanitization -/

lemma dropWhile_eq_self_of_all {p : Char → Bool} {l : JStr}
    (h : ∀ c ∈ l, p c = false) : l.dropWhile p = l := by
  cases l with
  | nil => rfl
  | cons a t => simp [List.dropWhile, h a (by simp)]

lemma jsTrim_all_safe {l : JStr} (h : ∀ c ∈ l, jsWs c = false) : jsTrim l = l := by
  unfold jsTrim
  rw [dropWhile_eq_self_of_all h,
    dropWhile_eq_self_of_all (fun c hc => h c (by simpa using hc)),
    List.reverse_reverse]

lemma head_dropWhile_false {p : Char → Bool} :
    ∀ {l : JStr} {a : Char}, (l.dropWhile p).head? = some a → p a = false := by
  intro l
  induction l with
  | nil => intro a h; simp at h
  | cons c t ih =>
    intro a h
    by_cases hp : p c
    · rw [show List.dropWhile p (c :: t) = List.dropWhile p t from by
        simp [List.dropWhile, hp]] at h
      exact ih h
    · rw [show List.dropWhile p (c :: t) = c :: t from by simp [List.dropWhile, hp]] at h
      cases h
      simpa using hp

lemma dropWhile_idem (p : Char → Bool) (l : JStr) :
    (l.dropWhile p).dropWhile p = l.dropWhile p := by
  cases hd : l.dropWhile p with
  | nil => rfl
  | cons a t =>
    have ha : p a = false := head_dropWhile_false (by rw [hd]; rfl)
    simp [List.dropWhile, ha]

lemma getLast?_dropWhile {p : Char → Bool} :
    ∀ {l : JStr}, l.dropWhile p ≠ [] → (l.dropWhile p).getLast? = l.getLast? := by
  intro l
  induction l with
  | nil => intro h; simp at h
  | cons a t ih =>
    intro h
    by_cases hp : p a
    · rw [show List.dropWhile p (a :: t) = List.dropWhile p t from by
        simp [List.dropWhile, hp]] at h ⊢
      cases t with
      | nil => simp [List.dropWhile] at h
      | cons b t2 => rw [ih h, List.getLast?_cons_cons]
    · rw [show List.dropWhile p (a :: t) = a :: t from by simp [List.dropWhile, hp]]

lemma jsTrim_idem (l : JStr) : jsTrim (jsTrim l) = jsTrim l := by
  show jsTrim ((((l.dropWhile jsWs).reverse.dropWhile jsWs)).reverse) =
    (((l.dropWhile jsWs).reverse.dropWhile jsWs)).reverse
  have step1 : (((l.dropWhile jsWs).reverse.dropWhile jsWs)).reverse.dropWhile jsWs =
      (((l.dropWhile jsWs).reverse.dropWhile jsWs)).reverse := by
    cases hBr : (((l.dropWhile jsWs).reverse.dropWhile jsWs)).reverse with
    | nil => rfl
    | cons a t =>
      have hBne : ((l.dropWhile jsWs).reverse.dropWhile jsWs) ≠ [] := by
        intro hc
        rw [hc] at hBr
        simp at hBr
      have hh : ((l.dropWhile jsWs).reverse.dropWhile jsWs).getLast? = some a := by
        rw [← List.head?_reverse, hBr]
        rfl
      have h2 : ((l.dropWhile jsWs).reverse.dropWhile jsWs).getLast? =
          (l.dropWhile jsWs).head? := by
        rw [getLast?_dropWhile hBne, List.getLast?_reverse]
      have hpa : jsWs a = false := by
        refine head_dropWhile_false (l := l) (a := a) ?_
        rw [← h2, hh]
      simp [List.dropWhile, hpa]
  unfold jsTrim
  rw [step1, List.reverse_reverse, dropWhile_idem]

lemma mem_of_stripLit_all {rest m : JStr}
    (hs : stripLit "strava-media/".toList m = some rest)
    (hall : rest.all safeMediaChar = true) :
    ∀ c ∈ m, safeMediaChar c = true := by
  intro c hc
  rw [stripLit_some hs] at hc
  rcases List.mem_append.mp hc with hc1 | hc2
  · have hpre : ("strava-media/".toList).all safeMediaChar = true := by decide
    exact List.all_eq_true.mp hpre c hc1
  · exact List.all_eq_true.mp hall c hc2

lemma sanitize_fixed {v : Json} {m : JStr} (h : sanitizeMediaPath v = some m) :
    sanitizeMediaPath (Json.str m) = some m := by
  obtain ⟨hdot, hpat⟩ := sanitize_shape h
  have hpat0 := hpat
  simp only [mediaPatTest] at hpat
  cases hs : stripLit "strava-media/".toList m with
  | none => rw [hs] at hpat; exact absurd hpat (by simp)
  | some rest =>
    rw [hs] at hpat
    simp only [Bool.and_eq_true, Bool.not_eq_true'] at hpat
    have hall : ∀ c ∈ m, safeMediaChar c = true := mem_of_stripLit_all hs hpat.2
    have htrim : jsTrim m = m :=
      jsTrim_all_safe (fun c hc => safeMediaChar_not_ws (hall c hc))
    have hm : m = "strava-media/".toList ++ rest := stripLit_some hs
    have hdrop : (jsTrim m).dropWhile (· == '/') = m := by
      rw [htrim, hm]
      rfl
    have hne : m.isEmpty = false := by
      rw [hm]
      rfl
    simp only [sanitizeMediaPath]
    rw [hdrop, hne, hdot]
    simp only [Bool.or_self, Bool.false_eq_true, if_false]
    rw [if_pos hpat0]

/-! ## C5: invariants of normalized run records -/

/-- The shape invariants a run record acquires through `normalizeRun`;
exactly what a second normalization pass needs to reproduce the record
unchanged. -/
def RunOK (r : RunLocation) : Prop :=
  r.lat.isFinite = true ∧ r.lng.isFinite = true ∧
  (jsTrim r.name = r.name ∧ r.name ≠ []) ∧
  (∃ q, r.distance = .num q ∧ max 0 q = q) ∧
  (∃ q, r.moving_time = .num q ∧ max 0 q = q) ∧
  (∀ m ∈ r.media, sanitizeMediaPath (Json.str m) = some m) ∧
  jsTrim r.gear = r.gear

lemma jsnum_finite_num {n : JSNum} (h : n.isFinite = true) : ∃ q, n = .num q := by
  cases n with
  | num q => exact ⟨q, rfl⟩
  | nan => simp [JSNum.isFinite] at h
  | posInf => simp [JSNum.isFinite] at h
  | negInf => simp [JSNum.isFinite] at h

lemma safeNumber_fallback_num (v : Json) (q0 : ℚ) :
    ∃ q, safeNumber v (.num q0) = .num q := by
  simp only [safeNumber]
  split
  next h => exact jsnum_finite_num h
  next h => exact ⟨q0, rfl⟩

lemma safeNumber_num_finite {n : JSNum} (h : n.isFinite = true) (fb : JSNum) :
    safeNumber (Json.num n) fb = n := by
  simp [safeNumber, h]

lemma max_zero_idem (q : ℚ) : max 0 (max 0 q) = max 0 q := by
  rw [← max_assoc, max_self]

lemma name_branch_ok (s fb : JStr) (hfb1 : jsTrim fb = fb) (hfb2 : fb ≠ []) :
    (jsTrim (if (jsTrim s).isEmpty then fb else jsTrim s) =
      (if (jsTrim s).isEmpty then fb else jsTrim s)) ∧
    (if (jsTrim s).isEmpty then fb else jsTrim s) ≠ [] := by
  by_cases he : (jsTrim s).isEmpty
  · simp [he, hfb1, hfb2]
  · simp only [he, Bool.false_eq_true, if_false]
    refine ⟨jsTrim_idem s, ?_⟩
    intro hc
    rw [hc] at he
    exact he rfl

lemma normalizeRun_ok {raw : Json} {r : RunLocation}
    (h : normalizeRun raw = some r) : RunOK r := by
  simp only [normalizeRun] at h
  by_cases h1 : (truthy raw && isObjType raw) = true
  · rw [if_neg (by simp [h1])] at h
    by_cases h2 : (!(safeNumber (getField raw "lat") JSNum.nan).isFinite ||
        !(safeNumber (getField raw "lng") JSNum.nan).isFinite) = true
    · rw [if_pos h2] at h
      exact absurd h (by simp)
    · rw [if_neg h2] at h
      cases h
      simp only [Bool.or_eq_true, Bool.not_eq_true'] at h2
      push_neg at h2
      refine ⟨by simpa using h2.1, by simpa using h2.2, ?_, ?_, ?_, ?_, ?_⟩
      · exact name_branch_ok _ _ (by decide) (by decide)
      · obtain ⟨q, hq⟩ := safeNumber_fallback_num (getField raw "distance") 0
        exact ⟨max 0 q, by simp [hq, jsMax], max_zero_idem q⟩
      · obtain ⟨q, hq⟩ := safeNumber_fallback_num (getField raw "moving_time") 0
        exact ⟨max 0 q, by simp [hq, jsMax], max_zero_idem q⟩
      · intro m hm
        simp only at hm
        cases hms : getField raw "media" with
        | arr ms =>
          rw [hms] at hm
          simp only [reduceOption_map] at hm
          obtain ⟨v, hv, hsan⟩ := List.mem_filterMap.mp hm
          exact sanitize_fixed hsan
        | undefined => rw [hms] at hm; simp at hm
        | null => rw [hms] at hm; simp at hm
        | bool b => rw [hms] at hm; simp at hm
        | num n => rw [hms] at hm; simp at hm
        | str s => rw [hms] at hm; simp at hm
        | obj fs => rw [hms] at hm; simp at hm
      · exact jsTrim_idem _
  · have h1f : (truthy raw && isObjType raw) = false := by
      cases hb : (truthy raw && isObjType raw)
      · rfl
      · exact absurd hb h1
    rw [if_pos (by simp [h1f])] at h
    exact absurd h (by simp)

lemma reduceOption_sanitize_fixed {media : List JStr}
    (h : ∀ m ∈ media, sanitizeMediaPath (Json.str m) = some m) :
    ((media.map Json.str).map sanitizeMediaPath).reduceOption = media := by
  rw [reduceOption_map, List.filterMap_map]
  induction media with
  | nil => rfl
  | cons m t ih =>
    rw [List.filterMap_cons]
    have hm : (sanitizeMediaPath ∘ Json.str) m = some m := h m (by simp)
    rw [hm, ih (fun x hx => h x (by simp [hx]))]

lemma normalizeRun_encode {r : RunLocation} (h : RunOK r) :
    normalizeRun (encodeRun r) = some r := by
  obtain ⟨lat, lng, name, date, dist, mt, media, gear⟩ := r
  obtain ⟨hlat, hlng, ⟨hname, hnamene⟩, ⟨qd, hqd, hqdmax⟩, ⟨qm, hqm, hqmmax⟩,
    hmedia, hgear⟩ := h
  simp only at hlat hlng hname hnamene hqd hqdmax hqm hqmmax hmedia hgear
  have hglat : safeNumber
      (getField (encodeRun ⟨lat, lng, name, date, dist, mt, media, gear⟩) "lat")
      JSNum.nan = lat := by
    rw [show getField (encodeRun ⟨lat, lng, name, date, dist, mt, media, gear⟩) "lat" =
      Json.num lat from rfl]
    exact safeNumber_num_finite hlat _
  have hglng : safeNumber
      (getField (encodeRun ⟨lat, lng, name, date, dist, mt, media, gear⟩) "lng")
      JSNum.nan = lng := by
    rw [show getField (encodeRun ⟨lat, lng, name, date, dist, mt, media, gear⟩) "lng" =
      Json.num lng from rfl]
    exact safeNumber_num_finite hlng _
  simp only [normalizeRun]
  rw [if_neg (by simp [truthy, isObjType, encodeRun])]
  rw [hglat, hglng]
  rw [if_neg (by simp [hlat, hlng])]
  have hnameisE : name.isEmpty = false := by
    cases name with
    | nil => exact absurd rfl hnamene
    | cons a t => rfl
  have hdistF : safeNumber
      (getField (encodeRun ⟨lat, lng, name, date, dist, mt, media, gear⟩) "distance")
      (JSNum.num 0) = dist := by
    rw [show getField (encodeRun ⟨lat, lng, name, date, dist, mt, media, gear⟩)
      "distance" = Json.num dist from rfl]
    exact safeNumber_num_finite (by simp [hqd, JSNum.isFinite]) _
  have hmtF : safeNumber
      (getField (encodeRun ⟨lat, lng, name, date, dist, mt, media, gear⟩) "moving_time")
      (JSNum.num 0) = mt := by
    rw [show getField (encodeRun ⟨lat, lng, name, date, dist, mt, media, gear⟩)
      "moving_time" = Json.num mt from rfl]
    exact safeNumber_num_finite (by simp [hqm, JSNum.isFinite]) _
  rw [hdistF, hmtF]
  rw [show getField (encodeRun ⟨lat, lng, name, date, dist, mt, media, gear⟩) "media" =
    Json.arr (media.map Json.str) from rfl]
  rw [show safeString (getField (encodeRun ⟨lat, lng, name, date, dist, mt, media,
      gear⟩) "name") "Run".toList = name from rfl]
  rw [hname, hnameisE]
  rw [show safeString (getField (encodeRun ⟨lat, lng, name, date, dist, mt, media,
      gear⟩) "date") [] = date from rfl]
  rw [show safeString (getField (encodeRun ⟨lat, lng, name, date, dist, mt, media,
      gear⟩) "gear") [] = gear from rfl]
  rw [hgear]
  rw [hqd, hqm]
  rw [show jsMax (JSNum.num 0) (JSNum.num qd) = JSNum.num (max 0 qd) from rfl, hqdmax]
  rw [show jsMax (JSNum.num 0) (JSNum.num qm) = JSNum.num (max 0 qm) from rfl, hqmmax]
  simp only [Bool.false_eq_true, if_false, Option.some.injEq, RunLocation.mk.injEq,
    and_true, true_and]
  exact reduceOption_sanitize_fixed hmedia

lemma runs_roundtrip {runs : List RunLocation} (h : ∀ r ∈ runs, RunOK r) :
    (((runs.map encodeRun).map normalizeRun)).reduceOption = runs := by
  rw [reduceOption_map, List.filterMap_map]
  induction runs with
  | nil => rfl
  | cons r t ih =>
    rw [List.filterMap_cons]
    have hr : (normalizeRun ∘ encodeRun) r = some r :=
      normalizeRun_encode (h r (by simp))
    rw [hr, ih (fun x hx => h x (by simp [hx]))]

/-! ## C5: invariants of normalized routes -/

/-- The shape invariants a route acquires through `normalizeRoute`. -/
def RouteOK (rt : Route) : Prop :=
  (jsTrim rt.name = rt.name ∧ rt.name ≠ []) ∧
  2 ≤ rt.coordinates.length ∧
  ∀ c ∈ rt.coordinates, c.1.isFinite = true ∧ c.2.isFinite = true

lemma coordNorm_ok {v : Json} {c : JSNum × JSNum} (h : coordNorm v = some c) :
    c.1.isFinite = true ∧ c.2.isFinite = true := by
  cases v with
  | arr es =>
    simp only [coordNorm] at h
    split at h
    · exact absurd h (by simp)
    · by_cases hf : (!(safeNumber (es.getD 0 Json.undefined) JSNum.nan).isFinite ||
          !(safeNumber (es.getD 1 Json.undefined) JSNum.nan).isFinite) = true
      · rw [if_pos hf] at h
        exact absurd h (by simp)
      · rw [if_neg hf] at h
        cases h
        simp only [Bool.or_eq_true, Bool.not_eq_true'] at hf
        push_neg at hf
        exact ⟨by simpa using hf.1, by simpa using hf.2⟩
  | undefined => simp [coordNorm] at h
  | null => simp [coordNorm] at h
  | bool b => simp [coordNorm] at h
  | num n => simp [coordNorm] at h
  | str s => simp [coordNorm] at h
  | obj fs => simp [coordNorm] at h

lemma normalizeRoute_ok {raw : Json} {rt : Route}
    (h : normalizeRoute raw = some rt) : RouteOK rt := by
  simp only [normalizeRoute] at h
  by_cases h1 : (truthy raw && isObjType raw) = true
  · rw [if_neg (by simp [h1])] at h
    cases hcs : getField raw "coordinates" with
    | arr cs =>
      rw [hcs] at h
      dsimp only at h
      by_cases hlen : ((cs.map coordNorm).reduceOption).length < 2
      · rw [if_pos hlen] at h
        exact absurd h (by simp)
      · rw [if_neg hlen] at h
        cases h
        refine ⟨name_branch_ok _ _ (by decide) (by decide), ?_, ?_⟩
        · show 2 ≤ ((cs.map coordNorm).reduceOption).length
          omega
        · intro c hc
          simp only at hc
          rw [reduceOption_map] at hc
          obtain ⟨v, hv, hcn⟩ := List.mem_filterMap.mp hc
          exact coordNorm_ok hcn
    | undefined => rw [hcs] at h; exact absurd h (by simp)
    | null => rw [hcs] at h; exact absurd h (by simp)
    | bool b => rw [hcs] at h; exact absurd h (by simp)
    | num n => rw [hcs] at h; exact absurd h (by simp)
    | str s => rw [hcs] at h; exact absurd h (by simp)
    | obj fs => rw [hcs] at h; exact absurd h (by simp)
  · have h1f : (truthy raw && isObjType raw) = false := by
      cases hb : (truthy raw && isObjType raw)
      · rfl
      · exact absurd hb h1
    rw [if_pos (by simp [h1f])] at h
    exact absurd h (by simp)

lemma coordNorm_encode {c : JSNum × JSNum} (h1 : c.1.isFinite = true)
    (h2 : c.2.isFinite = true) :
    coordNorm (Json.arr [Json.num c.1, Json.num c.2]) = some c := by
  simp only [coordNorm]
  rw [if_neg (by simp)]
  rw [show ([Json.num c.1, Json.num c.2].getD 0 Json.undefined) = Json.num c.1 from rfl]
  rw [show ([Json.num c.1, Json.num c.2].getD 1 Json.undefined) = Json.num c.2 from rfl]
  rw [safeNumber_num_finite h1 _, safeNumber_num_finite h2 _]
  rw [if_neg (by simp [h1, h2])]

lemma reduceOption_coord_fixed {coords : List (JSNum × JSNum)}
    (h : ∀ c ∈ coords, c.1.isFinite = true ∧ c.2.isFinite = true) :
    (((coords.map (fun c => Json.arr [Json.num c.1, Json.num c.2])).map
      coordNorm)).reduceOption = coords := by
  rw [reduceOption_map, List.filterMap_map]
  induction coords with
  | nil => rfl
  | cons c t ih =>
    rw [List.filterMap_cons]
    have hc : (coordNorm ∘ fun c => Json.arr [Json.num c.1, Json.num c.2]) c = some c :=
      coordNorm_encode (h c (by simp)).1 (h c (by simp)).2
    rw [hc, ih (fun x hx => h x (by simp [hx]))]

lemma normalizeRoute_encode {rt : Route} (h : RouteOK rt) :
    normalizeRoute (encodeRoute rt) = some rt := by
  obtain ⟨name, coords⟩ := rt
  obtain ⟨⟨hname, hnamene⟩, hlen, hfin⟩ := h
  simp only at hname hnamene hlen hfin
  simp only [normalizeRoute]
  rw [if_neg (by simp [truthy, isObjType, encodeRoute])]
  rw [show getField (encodeRoute ⟨name, coords⟩) "coordinates" =
    Json.arr (coords.map (fun c => Json.arr [Json.num c.1, Json.num c.2])) from rfl]
  dsimp only
  rw [reduceOption_coord_fixed hfin]
  rw [if_neg (by omega)]
  rw [show safeString (getField (encodeRoute ⟨name, coords⟩) "name") "Route".toList =
    name from rfl]
  rw [hname]
  have hnameisE : name.isEmpty = false := by
    cases name with
    | nil => exact absurd rfl hnamene
    | cons a t => rfl
  rw [hnameisE]
  simp

lemma routes_roundtrip {routes : List Route} (h : ∀ rt ∈ routes, RouteOK rt) :
    (((routes.map encodeRoute).map normalizeRoute)).reduceOption = routes := by
  rw [reduceOption_map, List.filterMap_map]
  induction routes with
  | nil => rfl
  | cons rt t ih =>
    rw [List.filterMap_cons]
    have hr : (normalizeRoute ∘ encodeRoute) rt = some rt :=
      normalizeRoute_encode (h rt (by simp))
    rw [hr, ih (fun x hx => h x (by simp [hx]))]

/-! ## C5: the stats normalizer is a fixed point on its own output -/

lemma normalizeStats_eq (dl : DateLib) (X : Json) (runs : List RunLocation) :
    normalizeStats dl X runs =
      { totalRuns := runs.length
        totalDistance := runs.foldl (fun sum r => jsAdd sum r.distance) (.num 0)
        uniqueLocations := getUniqueLocations runs
        dateRange := if 2 ≤ (persistedDateEntries X).length
                     then (persistedDateEntries X).take 2
                     else getDateRange dl runs } := rfl

lemma dateEntry_pos {v : Json} {s : JStr} (h : dateEntry v = some s) :
    0 < (jsTrim s).length := by
  cases v with
  | str s2 =>
    simp only [dateEntry] at h
    split at h
    next hp =>
      cases h
      exact hp
    · exact absurd h (by simp)
  | undefined => simp [dateEntry] at h
  | null => simp [dateEntry] at h
  | bool b => simp [dateEntry] at h
  | num n => simp [dateEntry] at h
  | arr es => simp [dateEntry] at h
  | obj fs => simp [dateEntry] at h

lemma persistedDateEntries_mem {X : Json} {s : JStr}
    (h : s ∈ persistedDateEntries X) : 0 < (jsTrim s).length := by
  simp only [persistedDateEntries] at h
  split at h
  next vs heq =>
    obtain ⟨v, hv, hde⟩ := List.mem_filterMap.mp h
    exact dateEntry_pos hde
  · simp at h

lemma dateEntries_of_fixed {xs : List JStr} (h : ∀ x ∈ xs, 0 < (jsTrim x).length) :
    (xs.map Json.str).filterMap dateEntry = xs := by
  induction xs with
  | nil => rfl
  | cons x t ih =>
    rw [List.map_cons, List.filterMap_cons]
    rw [show dateEntry (Json.str x) = some x from by
      simp [dateEntry, h x (by simp)]]
    rw [ih (fun y hy => h y (by simp [hy]))]

lemma getDateRange_shape (dl : DateLib) (runs : List RunLocation) :
    getDateRange dl runs = [] ∨ ∃ x y, getDateRange dl runs = [x, y] := by
  simp only [getDateRange]
  cases hts : ((runs.map (fun r => dl.parseMs r.date)).filterMap
      (fun n => match n with | .num q => some q | _ => none)) with
  | nil => exact Or.inl rfl
  | cons t ts => exact Or.inr ⟨_, _, rfl⟩

lemma dr_fixed (dl : DateLib) (runs : List RunLocation) (L : List JStr)
    (hL : ∀ x ∈ L, 0 < (jsTrim x).length) :
    (if 2 ≤ ((((if 2 ≤ L.length then L.take 2 else getDateRange dl runs).map
        Json.str).filterMap dateEntry)).length
     then ((((if 2 ≤ L.length then L.take 2 else getDateRange dl runs).map
        Json.str).filterMap dateEntry)).take 2
     else getDateRange dl runs) =
    (if 2 ≤ L.length then L.take 2 else getDateRange dl runs) := by
  by_cases hA : 2 ≤ L.length
  · rw [if_pos hA]
    rw [dateEntries_of_fixed (fun x hx => hL x (List.take_subset 2 _ hx))]
    have hlen2 : (L.take 2).length = 2 := by
      rw [List.length_take]
      omega
    rw [if_pos (by omega), List.take_take]
    norm_num
  · rw [if_neg hA]
    rcases getDateRange_shape dl runs with hsh | ⟨x, y, hsh⟩
    · rw [hsh]
      simp
    · rw [hsh]
      by_cases hx : 0 < (jsTrim x).length <;> by_cases hy : 0 < (jsTrim y).length
      · rw [show (([x, y] : List JStr).map Json.str).filterMap dateEntry = [x, y] from by
          simp [List.filterMap_cons, dateEntry, hx, hy]]
        simp
      · rw [show (([x, y] : List JStr).map Json.str).filterMap dateEntry = [x] from by
          simp [List.filterMap_cons, dateEntry, hx, hy]]
        simp
      · rw [show (([x, y] : List JStr).map Json.str).filterMap dateEntry = [y] from by
          simp [List.filterMap_cons, dateEntry, hx, hy]]
        simp
      · rw [show (([x, y] : List JStr).map Json.str).filterMap dateEntry = [] from by
          simp [List.filterMap_cons, dateEntry, hx, hy]]
        simp

lemma normalizeStats_fixed (dl : DateLib) (rawAny : Json) (runs : List RunLocation) :
    normalizeStats dl (encodeStats (normalizeStats dl rawAny runs)) runs =
      normalizeStats dl rawAny runs := by
  have key := dr_fixed dl runs (persistedDateEntries rawAny)
    (fun x hx => persistedDateEntries_mem hx)
  exact congrArg (fun dr =>
    ({ totalRuns := runs.length
       totalDistance := runs.foldl (fun sum r => jsAdd sum r.distance) (.num 0)
       uniqueLocations := getUniqueLocations runs
       dateRange := dr } : RunLocationsStats)) key

/-! ## C5: the artifact normalizer and the main idempotence theorem -/

lemma normalizeCache_runs_ok (dl : DateLib) (raw : Json) :
    ∀ r ∈ (normalizeCache dl raw).runs, RunOK r := by
  intro r hr
  cases raw with
  | arr items =>
    simp only [normalizeCache] at hr
    rw [reduceOption_map] at hr
    obtain ⟨v, hv, hn⟩ := List.mem_filterMap.mp hr
    exact normalizeRun_ok hn
  | obj fs =>
    simp only [normalizeCache] at hr
    rw [if_neg (by simp [truthy, isObjType])] at hr
    cases hrs : getField (Json.obj fs) "runs" with
    | arr rs =>
      rw [hrs] at hr
      simp only at hr
      rw [reduceOption_map] at hr
      obtain ⟨v, hv, hn⟩ := List.mem_filterMap.mp hr
      exact normalizeRun_ok hn
    | undefined => rw [hrs] at hr; simp at hr
    | null => rw [hrs] at hr; simp at hr
    | bool b => rw [hrs] at hr; simp at hr
    | num n => rw [hrs] at hr; simp at hr
    | str s => rw [hrs] at hr; simp at hr
    | obj fs2 => rw [hrs] at hr; simp at hr
  | undefined => simp [normalizeCache, truthy, EMPTY_CACHE] at hr
  | null => simp [normalizeCache, truthy, EMPTY_CACHE] at hr
  | bool b => simp [normalizeCache, truthy, isObjType, EMPTY_CACHE] at hr
  | num n => simp [normalizeCache, truthy, isObjType, EMPTY_CACHE] at hr
  | str s => simp [normalizeCache, truthy, isObjType, EMPTY_CACHE] at hr

lemma normalizeCache_routes_ok (dl : DateLib) (raw : Json) :
    ∀ rt ∈ (normalizeCache dl raw).routes, RouteOK rt := by
  intro rt hr
  cases raw with
  | arr items => simp [normalizeCache] at hr
  | obj fs =>
    simp only [normalizeCache] at hr
    rw [if_neg (by simp [truthy, isObjType])] at hr
    cases hrs : getField (Json.obj fs) "routes" with
    | arr rs =>
      rw [hrs] at hr
      simp only at hr
      rw [reduceOption_map] at hr
      obtain ⟨v, hv, hn⟩ := List.mem_filterMap.mp hr
      exact normalizeRoute_ok hn
    | undefined => rw [hrs] at hr; simp at hr
    | null => rw [hrs] at hr; simp at hr
    | bool b => rw [hrs] at hr; simp at hr
    | num n => rw [hrs] at hr; simp at hr
    | str s => rw [hrs] at hr; simp at hr
    | obj fs2 => rw [hrs] at hr; simp at hr
  | undefined => simp [normalizeCache, truthy, EMPTY_CACHE] at hr
  | null => simp [normalizeCache, truthy, EMPTY_CACHE] at hr
  | bool b => simp [normalizeCache, truthy, isObjType, EMPTY_CACHE] at hr
  | num n => simp [normalizeCache, truthy, isObjType, EMPTY_CACHE] at hr
  | str s => simp [normalizeCache, truthy, isObjType, EMPTY_CACHE] at hr

lemma normalizeCache_stats_eq (dl : DateLib) (raw : Json) :
    ∃ X, (normalizeCache dl raw).stats =
      normalizeStats dl X (normalizeCache dl raw).runs := by
  cases raw with
  | arr items => exact ⟨Json.null, rfl⟩
  | obj fs => exact ⟨getField (Json.obj fs) "stats", rfl⟩
  | undefined => exact ⟨Json.null, rfl⟩
  | null => exact ⟨Json.null, rfl⟩
  | bool b =>
    refine ⟨Json.null, ?_⟩
    have he : normalizeCache dl (Json.bool b) = EMPTY_CACHE := by
      simp [normalizeCache, isObjType]
    rw [he]
    rfl
  | num n =>
    refine ⟨Json.null, ?_⟩
    have he : normalizeCache dl (Json.num n) = EMPTY_CACHE := by
      simp [normalizeCache, isObjType]
    rw [he]
    rfl
  | str s =>
    refine ⟨Json.null, ?_⟩
    have he : normalizeCache dl (Json.str s) = EMPTY_CACHE := by
      simp [normalizeCache, isObjType]
    rw [he]
    rfl

/-- C5: the reader's artifact normalization is idempotent — feeding the
normalized artifact (as the JavaScript object it is) back through
`normalizeCache` returns it unchanged, for every raw input value and every
behaviour of the platform `Date` services. -/
theorem C5_normalizeCache_idempotent (dl : DateLib) (raw : Json) :
    normalizeCache dl (encodeCache (normalizeCache dl raw)) = normalizeCache dl raw := by
  obtain ⟨X, hstats⟩ := normalizeCache_stats_eq dl raw
  have hruns := normalizeCache_runs_ok dl raw
  have hroutes := normalizeCache_routes_ok dl raw
  have h1 : normalizeCache dl (encodeCache (normalizeCache dl raw)) =
      { runs := (((normalizeCache dl raw).runs.map encodeRun).map normalizeRun).reduceOption
        routes :=
          (((normalizeCache dl raw).routes.map encodeRoute).map normalizeRoute).reduceOption
        stats := normalizeStats dl (encodeStats (normalizeCache dl raw).stats)
          ((((normalizeCache dl raw).runs.map encodeRun).map normalizeRun).reduceOption) } :=
    rfl
  rw [h1, runs_roundtrip hruns, routes_roundtrip hroutes, hstats, normalizeStats_fixed,
    ← hstats]

end RunPipeline
